import Mathlib

/-!
Verification of the DNS server's wire codec and serving logic.

The Go source is shallowly embedded: byte buffers are `List Nat` (each entry a
byte value), Go strings are byte lists with the dot separator written as 46,
Go's `map[string]int` offset table is an association list, and Go's
`map[int]bool` visited set is a `Finset Nat`.  The name decoder
`readNameWithJumps` is modelled with an explicit fuel parameter; a theorem
below shows the chosen fuel is never exhausted, which is the termination
argument for the Go recursion.  Go runtime panics (out-of-range indexing) are
modelled by explicit `panic` constructors in the result types.
-/

namespace DnsGo

/-- Parse-error kinds, one per `fmt.Errorf` site of the reader. -/
inductive PErr where
  | shortHeader
  | nameOutOfRange
  | compressionLoop
  | truncatedPointer
  | pointerOutOfRange
  | labelTooLong
  | truncatedLabel
  | truncatedRData
  deriving DecidableEq, Repr

/-- Result of `readNameWithJumps`: the decoded name together with the cursor
after the name, a parse error, or fuel exhaustion (shown unreachable). -/
inductive NameRes where
  | ok (name : List Nat) (off : Nat)
  | err (e : PErr)
  | fuelOut
  deriving DecidableEq, Repr

/-- Go `strings.Join(labels, ".")` on byte lists. -/
def joinDot : List (List Nat) → List Nat
  | [] => []
  | [l] => l
  | l :: ls => l ++ 46 :: joinDot ls

/-- Go `strings.Split(name, ".")` on byte lists. -/
def splitDot : List Nat → List (List Nat)
  | [] => [[]]
  | b :: rest =>
    if b = 46 then [] :: splitDot rest
    else
      match splitDot rest with
      | [] => [[b]]
      | l :: ls => (b :: l) :: ls

/-- Model of `parser.readNameWithJumps`.  `orig` is `originalOff`, `visited`
the jump set, `labels` the accumulated label list, `off` the cursor; the
first argument after `data` is the fuel. -/
def readNameAux (data : List Nat) : Nat → Nat → Finset Nat → List (List Nat) → Nat → NameRes
  | 0, _, _, _, _ => .fuelOut
  | fuel + 1, orig, visited, labels, off =>
    if data.length ≤ off then .err .nameOutOfRange
    else if off ∈ visited then .err .compressionLoop
    else if data.getD off 0 &&& 192 = 192 then
      if data.length ≤ off + 1 then .err .truncatedPointer
      else if data.length ≤ (data.getD off 0 &&& 63) <<< 8 ||| data.getD (off + 1) 0 then
        .err .pointerOutOfRange
      else
        match readNameAux data fuel ((data.getD off 0 &&& 63) <<< 8 ||| data.getD (off + 1) 0)
            (insert orig visited) [] ((data.getD off 0 &&& 63) <<< 8 ||| data.getD (off + 1) 0) with
        | .ok name _ => .ok (joinDot (if name = [] then labels else labels ++ [name])) (off + 2)
        | r => r
    else if 63 < data.getD off 0 then .err .labelTooLong
    else if data.getD off 0 = 0 then .ok (joinDot labels) (off + 1)
    else if data.length < off + 1 + data.getD off 0 then .err .truncatedLabel
    else readNameAux data fuel orig visited (labels ++ [(data.drop (off + 1)).take (data.getD off 0)])
      (off + 1 + data.getD off 0)

/-- Fuel bound used to run the name decoder; proven sufficient below. -/
def bigFuel (data : List Nat) : Nat := (data.length + 1) * (data.length + 1) + 1

/-- Model of `parser.readName`: fresh visited set, enough fuel. -/
def readNameT (data : List Nat) (off : Nat) : NameRes :=
  readNameAux data (bigFuel data) off ∅ [] off

/-- Go `Header`. -/
structure Header where
  ID : Nat
  QR : Bool
  Opcode : Nat
  AA : Bool
  TC : Bool
  RD : Bool
  RA : Bool
  Z : Nat
  RCode : Nat
  QDCount : Nat
  ANCount : Nat
  NSCount : Nat
  ARCount : Nat
  deriving DecidableEq, Repr

/-- Go `Question`. -/
structure Question where
  Name : List Nat
  QType : Nat
  QClass : Nat
  deriving DecidableEq, Repr

/-- Go `ResourceRecord`; the 16-bit TYPE field is called `Ty` because `Type`
is reserved in Lean. -/
structure ResourceRecord where
  Name : List Nat
  Ty : Nat
  Class : Nat
  TTL : Nat
  RData : List Nat
  deriving DecidableEq, Repr

/-- Go `Message`. -/
structure Message where
  Header : Header
  Questions : List Question
  Answers : List ResourceRecord
  Authorities : List ResourceRecord
  Additionals : List ResourceRecord
  deriving DecidableEq, Repr

/-- Go `Query` (the writer-side message: header, questions, answers). -/
structure Query where
  Header : Header
  Questions : List Question
  Answers : List ResourceRecord
  deriving DecidableEq, Repr

/-- Big-endian 16-bit read at index `i`, as `binary.BigEndian.Uint16`. -/
def be16 (data : List Nat) (i : Nat) : Nat :=
  data.getD i 0 <<< 8 ||| data.getD (i + 1) 0

/-- Big-endian 32-bit read at index `i`, as `binary.BigEndian.Uint32`. -/
def be32 (data : List Nat) (i : Nat) : Nat :=
  data.getD i 0 <<< 24 ||| data.getD (i + 1) 0 <<< 16 ||| data.getD (i + 2) 0 <<< 8 ||| data.getD (i + 3) 0

/-- Model of `parseHeader`. -/
def parseHeader (data : List Nat) : Except PErr Header :=
  if data.length < 12 then .error .shortHeader
  else
    let flags := be16 data 2
    .ok { ID := be16 data 0
          QR := (flags >>> 15) &&& 1 == 1
          Opcode := (flags >>> 11) &&& 15
          AA := (flags >>> 10) &&& 1 == 1
          TC := (flags >>> 9) &&& 1 == 1
          RD := (flags >>> 8) &&& 1 == 1
          RA := (flags >>> 7) &&& 1 == 1
          Z := (flags >>> 4) &&& 7
          RCode := flags &&& 15
          QDCount := be16 data 4
          ANCount := be16 data 6
          NSCount := be16 data 8
          ARCount := be16 data 10 }

/-- Parser-step result: value plus advanced cursor, parse error, Go runtime
panic (unchecked slice indexing), or (unreachable) fuel exhaustion. -/
inductive PRes (α : Type) where
  | ok (a : α) (off : Nat)
  | err (e : PErr)
  | panic
  | fuelOut
  deriving DecidableEq, Repr

/-- Model of `parser.readUint16`.  The Go code indexes `p.data[p.off:]`
without a bounds check, so fewer than two remaining bytes is a runtime
panic, not a parse error. -/
def readUint16 (data : List Nat) (off : Nat) : PRes Nat :=
  if off + 2 ≤ data.length then .ok (be16 data off) (off + 2) else .panic

/-- Model of `parser.readUint32`, panicking like `readUint16`. -/
def readUint32 (data : List Nat) (off : Nat) : PRes Nat :=
  if off + 4 ≤ data.length then .ok (be32 data off) (off + 4) else .panic

/-- Model of `parser.readQuestion`. -/
def readQuestion (data : List Nat) (off : Nat) : PRes Question :=
  match readNameT data off with
  | .ok name off1 =>
    match readUint16 data off1 with
    | .ok qt off2 =>
      match readUint16 data off2 with
      | .ok qc off3 => .ok { Name := name, QType := qt, QClass := qc } off3
      | .err e => .err e
      | .panic => .panic
      | .fuelOut => .fuelOut
    | .err e => .err e
    | .panic => .panic
    | .fuelOut => .fuelOut
  | .err e => .err e
  | .fuelOut => .fuelOut

/-- Model of `parser.readResourceRecord`. -/
def readResourceRecord (data : List Nat) (off : Nat) : PRes ResourceRecord :=
  match readNameT data off with
  | .ok name off1 =>
    match readUint16 data off1 with
    | .ok t off2 =>
      match readUint16 data off2 with
      | .ok c off3 =>
        match readUint32 data off3 with
        | .ok ttl off4 =>
          match readUint16 data off4 with
          | .ok rdlen off5 =>
            if data.length < off5 + rdlen then .err .truncatedRData
            else .ok { Name := name, Ty := t, Class := c, TTL := ttl,
                       RData := (data.drop off5).take rdlen } (off5 + rdlen)
          | .err e => .err e
          | .panic => .panic
          | .fuelOut => .fuelOut
        | .err e => .err e
        | .panic => .panic
        | .fuelOut => .fuelOut
      | .err e => .err e
      | .panic => .panic
      | .fuelOut => .fuelOut
    | .err e => .err e
    | .panic => .panic
    | .fuelOut => .fuelOut
  | .err e => .err e
  | .fuelOut => .fuelOut

/-- Read `n` questions in sequence, as the QDCOUNT loop of `ParseMessage`. -/
def readQuestions (data : List Nat) : Nat → Nat → PRes (List Question)
  | 0, off => .ok [] off
  | n + 1, off =>
    match readQuestion data off with
    | .ok q off1 =>
      match readQuestions data n off1 with
      | .ok qs off2 => .ok (q :: qs) off2
      | .err e => .err e
      | .panic => .panic
      | .fuelOut => .fuelOut
    | .err e => .err e
    | .panic => .panic
    | .fuelOut => .fuelOut

/-- Read `n` resource records in sequence, as the count loops of
`ParseMessage`. -/
def readRRs (data : List Nat) : Nat → Nat → PRes (List ResourceRecord)
  | 0, off => .ok [] off
  | n + 1, off =>
    match readResourceRecord data off with
    | .ok rr off1 =>
      match readRRs data n off1 with
      | .ok rrs off2 => .ok (rr :: rrs) off2
      | .err e => .err e
      | .panic => .panic
      | .fuelOut => .fuelOut
    | .err e => .err e
    | .panic => .panic
    | .fuelOut => .fuelOut

/-- Result of `ParseMessage`. -/
inductive MRes where
  | ok (m : Message)
  | err (e : PErr)
  | panic
  | fuelOut
  deriving DecidableEq, Repr

/-- Model of `ParseMessage`. -/
def ParseMessage (data : List Nat) : MRes :=
  match parseHeader data with
  | .error e => .err e
  | .ok h =>
    match readQuestions data h.QDCount 12 with
    | .ok qs off1 =>
      match readRRs data h.ANCount off1 with
      | .ok ans off2 =>
        match readRRs data h.NSCount off2 with
        | .ok auth off3 =>
          match readRRs data h.ARCount off3 with
          | .ok add _ => .ok { Header := h, Questions := qs, Answers := ans,
                               Authorities := auth, Additionals := add }
          | .err e => .err e
          | .panic => .panic
          | .fuelOut => .fuelOut
        | .err e => .err e
        | .panic => .panic
        | .fuelOut => .fuelOut
      | .err e => .err e
      | .panic => .panic
      | .fuelOut => .fuelOut
    | .err e => .err e
    | .panic => .panic
    | .fuelOut => .fuelOut

/-- Big-endian bytes of a 16-bit value, as `binary.BigEndian.PutUint16`
(each output entry reduced to a byte as Go's `byte` conversion does). -/
def u16be (v : Nat) : List Nat := [(v >>> 8) % 256, v % 256]

/-- Big-endian bytes of a 32-bit value, as `binary.BigEndian.PutUint32`. -/
def u32be (v : Nat) : List Nat :=
  [(v >>> 24) % 256, (v >>> 16) % 256, (v >>> 8) % 256, v % 256]

/-- The 16-bit flags word built by `Header.Encode`, with the source's masks. -/
def headerFlags (h : Header) : Nat :=
  let f1 : Nat := if h.QR then 0 ||| 1 <<< 15 else 0
  let f2 := f1 ||| (h.Opcode &&& 15) <<< 11
  let f3 := if h.AA then f2 ||| 1 <<< 10 else f2
  let f4 := if h.TC then f3 ||| 1 <<< 9 else f3
  let f5 := if h.RD then f4 ||| 1 <<< 8 else f4
  let f6 := if h.RA then f5 ||| 1 <<< 7 else f5
  let f7 := f6 ||| (h.Z &&& 7) <<< 4
  f7 ||| (h.RCode &&& 15)

/-- Model of `Header.Encode`: a 12-byte big-endian header. -/
def encodeHeader (h : Header) : List Nat :=
  u16be h.ID ++ u16be (headerFlags h) ++ u16be h.QDCount ++ u16be h.ANCount ++
    u16be h.NSCount ++ u16be h.ARCount

/-- The writer's offset table `map[string]int`, newest entry first. -/
abbrev OffMap : Type := List (List Nat × Nat)

/-- Offset-table lookup (Go map lookup; keys are never inserted twice). -/
def lookupKey (k : List Nat) : OffMap → Option Nat
  | [] => none
  | (k', v) :: rest => if k' = k then some v else lookupKey k rest

/-- The label loop of `encodeName`: for each suffix, either emit a 2-byte
compression pointer for a previously recorded suffix, or record the suffix
offset and emit the length-prefixed label; a trailing zero byte terminates a
fully literal name. -/
def encodeLabels : List (List Nat) → List Nat → OffMap → List Nat × OffMap
  | [], buf, m => (buf ++ [0], m)
  | l :: rest, buf, m =>
    match lookupKey (joinDot (l :: rest)) m with
    | some pos =>
      (buf ++ [(((49152 ||| pos) % 65536) >>> 8) % 256, ((49152 ||| pos) % 65536) % 256], m)
    | none => encodeLabels rest (buf ++ l.length % 256 :: l) ((joinDot (l :: rest), buf.length) :: m)

/-- Model of `encodeName`: the empty (root) name is a single zero byte. -/
def encodeName (name : List Nat) (buf : List Nat) (m : OffMap) : List Nat × OffMap :=
  if name = [] then (buf ++ [0], m) else encodeLabels (splitDot name) buf m

/-- Model of `Question.Encode`. -/
def encodeQuestion (q : Question) (buf : List Nat) (m : OffMap) : List Nat × OffMap :=
  ((encodeName q.Name buf m).1 ++ u16be q.QType ++ u16be q.QClass, (encodeName q.Name buf m).2)

/-- Model of `ResourceRecord.Encode`; RDLENGTH is derived from the RDATA
length as in the source. -/
def encodeRR (rr : ResourceRecord) (buf : List Nat) (m : OffMap) : List Nat × OffMap :=
  ((encodeName rr.Name buf m).1 ++ u16be rr.Ty ++ u16be rr.Class ++ u32be rr.TTL ++
      u16be rr.RData.length ++ rr.RData,
    (encodeName rr.Name buf m).2)

/-- Encode all questions in order, threading buffer and offset table. -/
def encodeQuestions : List Question → List Nat → OffMap → List Nat × OffMap
  | [], buf, m => (buf, m)
  | q :: qs, buf, m => encodeQuestions qs (encodeQuestion q buf m).1 (encodeQuestion q buf m).2

/-- Encode all answer records in order, threading buffer and offset table. -/
def encodeRRs : List ResourceRecord → List Nat → OffMap → List Nat × OffMap
  | [], buf, m => (buf, m)
  | rr :: rrs, buf, m => encodeRRs rrs (encodeRR rr buf m).1 (encodeRR rr buf m).2

/-- Model of `Query.Encode`: header bytes, then questions, then answers,
with one fresh offset table for the whole message. -/
def encodeQuery (q : Query) : List Nat :=
  (encodeRRs q.Answers (encodeQuestions q.Questions (encodeHeader q.Header) []).1
    (encodeQuestions q.Questions (encodeHeader q.Header) []).2).1

/-- Model of `answerQuestion`: the fixed stub answer. -/
def answerQuestion (q : Question) : ResourceRecord :=
  { Name := q.Name, Ty := 1, Class := 1, TTL := 60, RData := [8, 8, 8, 8] }

/-- The stub-mode response built in `main` (lines 503-542): echoed ID,
Opcode and RD, QR set, one synthesized answer per question, counts taken
from the question list through Go's `uint16` conversion. -/
def stubResponse (m : Message) (rc : Nat) : Query :=
  { Header := { ID := m.Header.ID, QR := true, Opcode := m.Header.Opcode,
                AA := false, TC := false, RD := m.Header.RD, RA := false,
                Z := 0, RCode := rc,
                QDCount := m.Questions.length % 65536,
                ANCount := m.Questions.length % 65536,
                NSCount := 0, ARCount := 0 }
    Questions := m.Questions
    Answers := m.Questions.map answerQuestion }

/-- The single-question upstream query built in the forwarder loop of
`main` (lines 422-441). -/
def singleQuery (m : Message) (q : Question) : Query :=
  { Header := { ID := m.Header.ID, QR := false, Opcode := m.Header.Opcode,
                AA := false, TC := false, RD := m.Header.RD, RA := false,
                Z := 0, RCode := 0, QDCount := 1, ANCount := 0,
                NSCount := 0, ARCount := 0 }
    Questions := [q]
    Answers := [] }

/-- Outcome of one upstream exchange, with the UDP dial, write and read
failures kept distinct: the source's dial-error branch (lines 445-447) only
logs — it has no `continue` — so `conn` is nil and the following
`conn.Write` is a nil-pointer dereference, while the write-error and
read-error branches do `continue`. -/
inductive UpRes where
  | dialErr
  | writeErr
  | readErr
  | reply (bytes : List Nat)
  deriving DecidableEq, Repr

/-- The forwarder loop of `main` (lines 444-473): each question is sent
upstream; write failures, read failures and parse errors skip the question
(`continue`); a dial failure dereferences the nil connection and a reply
whose parse panics crashes inside `ParseMessage` — both runtime panics,
modelled as `none`. -/
def collectAnswers (exch : Nat → Question → UpRes) : Nat → List Question → Option (List ResourceRecord)
  | _, [] => some []
  | i, q :: qs =>
    let contrib : Option (List ResourceRecord) :=
      match exch i q with
      | .dialErr => none
      | .writeErr => some []
      | .readErr => some []
      | .reply bytes =>
        match ParseMessage bytes with
        | .ok r => some r.Answers
        | .err _ => some []
        | .panic => none
        | .fuelOut => none
    match contrib, collectAnswers exch (i + 1) qs with
    | some a, some rest => some (a ++ rest)
    | _, _ => none

/-- Outcome of handling one datagram: a response message is serialized and
sent, or the process crashes on a Go runtime panic. -/
inductive StepRes where
  | sent (resp : Query)
  | crash
  deriving DecidableEq, Repr

/-- The forwarder-mode response assembly of `main` (lines 475-493). -/
def forwardResponse (m : Message) (exch : Nat → Question → UpRes) : StepRes :=
  match collectAnswers exch 0 m.Questions with
  | none => .crash
  | some allAnswers =>
    .sent { Header := { ID := m.Header.ID, QR := true, Opcode := m.Header.Opcode,
                        AA := false, TC := false, RD := m.Header.RD, RA := true,
                        Z := 0, RCode := 0,
                        QDCount := m.Questions.length % 65536,
                        ANCount := allAnswers.length % 65536,
                        NSCount := 0, ARCount := 0 }
            Questions := m.Questions
            Answers := allAnswers }

/-- One iteration of the server loop of `main` on a received datagram.  On a
parse error the source logs but does not `continue`; it then dereferences
the nil `message` pointer, a runtime panic, modelled as `crash`. -/
def handleDatagram (forward : Bool) (exch : Nat → Question → UpRes) (data : List Nat) : StepRes :=
  match ParseMessage data with
  | .ok m =>
    let rc : Nat := if m.Header.Opcode ≠ 0 then 4 else 0
    if forward ∧ rc = 0 then forwardResponse m exch
    else .sent (stubResponse m rc)
  | _ => .crash

/-! ### Arithmetic helpers for big-endian bytes and flag packing -/

theorem lor_eq_add {b k : Nat} (a : Nat) (hb : b < 2 ^ k) :
    (2 ^ k * a) ||| b = 2 ^ k * a + b := by
  apply Nat.eq_of_testBit_eq
  intro j
  rw [Nat.testBit_lor, Nat.testBit_mul_pow_two_add a hb j, Nat.testBit_mul_pow_two]
  rcases lt_or_le j k with h | h
  · have h2 : ¬ j ≥ k := by omega
    simp [h, h2]
  · have hbj : b.testBit j = false :=
      Nat.testBit_lt_two_pow (lt_of_lt_of_le hb (Nat.pow_le_pow_right (by norm_num) h))
    have h2 : ¬ j < k := by omega
    simp [h2, h, hbj]

theorem lor_add_multiple {x b k : Nat} (hx : x % 2 ^ k = 0) (hb : b < 2 ^ k) :
    x ||| b = x + b := by
  obtain ⟨a, rfl⟩ : ∃ a, x = 2 ^ k * a :=
    ⟨x / 2 ^ k, by rw [Nat.mul_div_cancel' (Nat.dvd_of_mod_eq_zero hx)]⟩
  exact lor_eq_add a hb

theorem and_one_eq (n : Nat) : n &&& 1 = n % 2 := Nat.and_one_is_mod n

theorem and_seven_eq (n : Nat) : n &&& 7 = n % 8 := by
  have := Nat.and_pow_two_sub_one_eq_mod n 3
  norm_num at this
  exact this

theorem and_fifteen_eq (n : Nat) : n &&& 15 = n % 16 := by
  have := Nat.and_pow_two_sub_one_eq_mod n 4
  norm_num at this
  exact this

theorem and_sixtythree_eq (n : Nat) : n &&& 63 = n % 64 := by
  have := Nat.and_pow_two_sub_one_eq_mod n 6
  norm_num at this
  exact this

set_option maxRecDepth 20000 in
theorem ptrByte_and_hi : ∀ x < 64, (192 + x) &&& 192 = 192 := by decide

set_option maxRecDepth 20000 in
theorem ptrByte_and_lo : ∀ x < 64, (192 + x) &&& 63 = x := by decide

set_option maxRecDepth 20000 in
theorem small_not_ptrByte : ∀ x < 64, ¬ (x &&& 192 = 192) := by decide

set_option maxRecDepth 40000 in
theorem mid_not_ptrByte : ∀ x < 192, 64 ≤ x → ¬ (x &&& 192 = 192) := by decide

/-- Reassembling the two big-endian bytes of a 16-bit value restores it. -/
theorem be16_of_u16 (v : Nat) (hv : v < 65536) :
    ((v >>> 8) % 256) <<< 8 ||| v % 256 = v := by
  rw [Nat.shiftRight_eq_div_pow, Nat.shiftLeft_eq]
  have h1 : v / 2 ^ 8 % 256 = v / 256 := by omega
  rw [h1]
  rw [lor_add_multiple (k := 8) (by omega) (by omega)]
  omega

/-- Reassembling the four big-endian bytes of a 32-bit value restores it. -/
theorem be32_of_u32 (v : Nat) (hv : v < 4294967296) :
    ((v >>> 24) % 256) <<< 24 ||| ((v >>> 16) % 256) <<< 16 |||
      ((v >>> 8) % 256) <<< 8 ||| v % 256 = v := by
  simp only [Nat.shiftRight_eq_div_pow, Nat.shiftLeft_eq]
  norm_num
  have e1 : v / 16777216 % 256 * 16777216 = v / 16777216 * 16777216 := by
    have : v / 16777216 % 256 = v / 16777216 := by omega
    rw [this]
  rw [e1]
  have s1 : v / 16777216 * 16777216 ||| v / 65536 % 256 * 65536
      = v / 16777216 * 16777216 + v / 65536 % 256 * 65536 :=
    lor_add_multiple (k := 24) (by omega) (by omega)
  have s2 : v / 16777216 * 16777216 + v / 65536 % 256 * 65536 ||| v / 256 % 256 * 256
      = v / 16777216 * 16777216 + v / 65536 % 256 * 65536 + v / 256 % 256 * 256 :=
    lor_add_multiple (k := 16) (by omega) (by omega)
  have s3 : v / 16777216 * 16777216 + v / 65536 % 256 * 65536 + v / 256 % 256 * 256 ||| v % 256
      = v / 16777216 * 16777216 + v / 65536 % 256 * 65536 + v / 256 % 256 * 256 + v % 256 :=
    lor_add_multiple (k := 8) (by omega) (by omega)
  rw [s1, s2, s3]
  omega

theorem flags_lor_sum (q a t r ra o z rc : Nat) (_hq : q ≤ 1) (ha : a ≤ 1) (ht : t ≤ 1)
    (hr : r ≤ 1) (hra : ra ≤ 1) (ho : o < 16) (hz : z < 8) (hrc : rc < 16) :
    ((((((q * 32768 ||| o * 2048) ||| a * 1024) ||| t * 512) ||| r * 256) ||| ra * 128)
        ||| z * 16) ||| rc
      = q * 32768 + o * 2048 + a * 1024 + t * 512 + r * 256 + ra * 128 + z * 16 + rc := by
  have s1 : q * 32768 ||| o * 2048 = q * 32768 + o * 2048 :=
    lor_add_multiple (k := 15) (by omega) (by omega)
  have s2 : q * 32768 + o * 2048 ||| a * 1024 = q * 32768 + o * 2048 + a * 1024 :=
    lor_add_multiple (k := 11) (by omega) (by omega)
  have s3 : q * 32768 + o * 2048 + a * 1024 ||| t * 512
      = q * 32768 + o * 2048 + a * 1024 + t * 512 :=
    lor_add_multiple (k := 10) (by omega) (by omega)
  have s4 : q * 32768 + o * 2048 + a * 1024 + t * 512 ||| r * 256
      = q * 32768 + o * 2048 + a * 1024 + t * 512 + r * 256 :=
    lor_add_multiple (k := 9) (by omega) (by omega)
  have s5 : q * 32768 + o * 2048 + a * 1024 + t * 512 + r * 256 ||| ra * 128
      = q * 32768 + o * 2048 + a * 1024 + t * 512 + r * 256 + ra * 128 :=
    lor_add_multiple (k := 8) (by omega) (by omega)
  have s6 : q * 32768 + o * 2048 + a * 1024 + t * 512 + r * 256 + ra * 128 ||| z * 16
      = q * 32768 + o * 2048 + a * 1024 + t * 512 + r * 256 + ra * 128 + z * 16 :=
    lor_add_multiple (k := 7) (by omega) (by omega)
  have s7 : q * 32768 + o * 2048 + a * 1024 + t * 512 + r * 256 + ra * 128 + z * 16 ||| rc
      = q * 32768 + o * 2048 + a * 1024 + t * 512 + r * 256 + ra * 128 + z * 16 + rc :=
    lor_add_multiple (k := 4) (by omega) (by omega)
  rw [s1, s2, s3, s4, s5, s6, s7]

/-- The flags word as a plain sum of its bit fields. -/
theorem headerFlags_eq (h : Header) :
    headerFlags h = (cond h.QR 1 0) * 32768 + h.Opcode % 16 * 2048
      + (cond h.AA 1 0) * 1024 + (cond h.TC 1 0) * 512 + (cond h.RD 1 0) * 256
      + (cond h.RA 1 0) * 128 + h.Z % 8 * 16 + h.RCode % 16 := by
  have eop : (h.Opcode &&& 15) <<< 11 = h.Opcode % 16 * 2048 := by
    rw [and_fifteen_eq, Nat.shiftLeft_eq]
  have ez : (h.Z &&& 7) <<< 4 = h.Z % 8 * 16 := by
    rw [and_seven_eq, Nat.shiftLeft_eq]
  have erc : h.RCode &&& 15 = h.RCode % 16 := and_fifteen_eq _
  unfold headerFlags
  simp only [eop, ez, erc]
  have e1 : (if h.QR then (0 : Nat) ||| 1 <<< 15 else 0) = (cond h.QR 1 0) * 32768 := by
    cases h.QR <;> simp
  have e3 : ∀ x : Nat, (if h.AA then x ||| 1 <<< 10 else x) = x ||| (cond h.AA 1 0) * 1024 := by
    intro x
    cases h.AA <;> simp
  have e4 : ∀ x : Nat, (if h.TC then x ||| 1 <<< 9 else x) = x ||| (cond h.TC 1 0) * 512 := by
    intro x
    cases h.TC <;> simp
  have e5 : ∀ x : Nat, (if h.RD then x ||| 1 <<< 8 else x) = x ||| (cond h.RD 1 0) * 256 := by
    intro x
    cases h.RD <;> simp
  have e6 : ∀ x : Nat, (if h.RA then x ||| 1 <<< 7 else x) = x ||| (cond h.RA 1 0) * 128 := by
    intro x
    cases h.RA <;> simp
  rw [e1, e3, e4, e5, e6]
  exact flags_lor_sum _ _ _ _ _ _ _ _ (by cases h.QR <;> simp) (by cases h.AA <;> simp)
    (by cases h.TC <;> simp) (by cases h.RD <;> simp) (by cases h.RA <;> simp)
    (by omega) (by omega) (by omega)

/-- The flags word fits in 16 bits. -/
theorem headerFlags_lt (h : Header) : headerFlags h < 65536 := by
  rw [headerFlags_eq]
  have h1 : cond h.QR 1 0 ≤ 1 := by cases h.QR <;> simp
  have h2 : cond h.AA 1 0 ≤ 1 := by cases h.AA <;> simp
  have h3 : cond h.TC 1 0 ≤ 1 := by cases h.TC <;> simp
  have h4 : cond h.RD 1 0 ≤ 1 := by cases h.RD <;> simp
  have h5 : cond h.RA 1 0 ≤ 1 := by cases h.RA <;> simp
  have h6 : h.Opcode % 16 < 16 := by omega
  have h7 : h.Z % 8 < 8 := by omega
  have h8 : h.RCode % 16 < 16 := by omega
  omega


theorem encodeHeader_length (h : Header) : (encodeHeader h).length = 12 := by
  simp [encodeHeader, u16be]

theorem parseHeader_encode (h : Header) (rest : List Nat)
    (hID : h.ID < 65536) (hop : h.Opcode < 16) (hz : h.Z < 8) (hrc : h.RCode < 16)
    (hqd : h.QDCount < 65536) (han : h.ANCount < 65536) (hns : h.NSCount < 65536)
    (har : h.ARCount < 65536) :
    parseHeader (encodeHeader h ++ rest) = .ok h := by
  have hfl := headerFlags_eq h
  set fl := headerFlags h with hfldef
  have hq1 : cond h.QR 1 0 ≤ 1 := by cases h.QR <;> simp
  have ha1 : cond h.AA 1 0 ≤ 1 := by cases h.AA <;> simp
  have ht1 : cond h.TC 1 0 ≤ 1 := by cases h.TC <;> simp
  have hr1 : cond h.RD 1 0 ≤ 1 := by cases h.RD <;> simp
  have hra1 : cond h.RA 1 0 ≤ 1 := by cases h.RA <;> simp
  have hfl16 : fl < 65536 := headerFlags_lt h
  have hlist : encodeHeader h ++ rest
      = (h.ID >>> 8) % 256 :: h.ID % 256 :: (fl >>> 8) % 256 :: fl % 256 ::
        (h.QDCount >>> 8) % 256 :: h.QDCount % 256 :: (h.ANCount >>> 8) % 256 :: h.ANCount % 256 ::
        (h.NSCount >>> 8) % 256 :: h.NSCount % 256 :: (h.ARCount >>> 8) % 256 :: h.ARCount % 256 :: rest := by
    simp [encodeHeader, u16be]
  rw [hlist]
  unfold parseHeader
  rw [if_neg (by simp only [List.length_cons]; omega)]
  simp only [be16, List.getD_cons_zero, List.getD_cons_succ]
  rw [be16_of_u16 h.ID hID, be16_of_u16 fl hfl16, be16_of_u16 h.QDCount hqd,
      be16_of_u16 h.ANCount han, be16_of_u16 h.NSCount hns, be16_of_u16 h.ARCount har]
  have eQR : ((fl >>> 15) &&& 1 == 1) = h.QR := by
    have e : (fl >>> 15) &&& 1 = cond h.QR 1 0 := by
      rw [and_one_eq, Nat.shiftRight_eq_div_pow]
      norm_num
      omega
    rw [e]
    cases h.QR <;> simp
  have eOp : (fl >>> 11) &&& 15 = h.Opcode := by
    rw [and_fifteen_eq, Nat.shiftRight_eq_div_pow]
    norm_num
    omega
  have eAA : ((fl >>> 10) &&& 1 == 1) = h.AA := by
    have e : (fl >>> 10) &&& 1 = cond h.AA 1 0 := by
      rw [and_one_eq, Nat.shiftRight_eq_div_pow]
      norm_num
      omega
    rw [e]
    cases h.AA <;> simp
  have eTC : ((fl >>> 9) &&& 1 == 1) = h.TC := by
    have e : (fl >>> 9) &&& 1 = cond h.TC 1 0 := by
      rw [and_one_eq, Nat.shiftRight_eq_div_pow]
      norm_num
      omega
    rw [e]
    cases h.TC <;> simp
  have eRD : ((fl >>> 8) &&& 1 == 1) = h.RD := by
    have e : (fl >>> 8) &&& 1 = cond h.RD 1 0 := by
      rw [and_one_eq, Nat.shiftRight_eq_div_pow]
      norm_num
      omega
    rw [e]
    cases h.RD <;> simp
  have eRA : ((fl >>> 7) &&& 1 == 1) = h.RA := by
    have e : (fl >>> 7) &&& 1 = cond h.RA 1 0 := by
      rw [and_one_eq, Nat.shiftRight_eq_div_pow]
      norm_num
      omega
    rw [e]
    cases h.RA <;> simp
  have eZ : (fl >>> 4) &&& 7 = h.Z := by
    rw [and_seven_eq, Nat.shiftRight_eq_div_pow]
    norm_num
    omega
  have eRC : fl &&& 15 = h.RCode := by
    rw [and_fifteen_eq]
    omega
  rw [eQR, eOp, eAA, eTC, eRD, eRA, eZ, eRC]



theorem joinDot_cons₂ (l l' : List Nat) (ls : List (List Nat)) :
    joinDot (l :: l' :: ls) = l ++ 46 :: joinDot (l' :: ls) := rfl

theorem splitDot_ne_nil (n : List Nat) : splitDot n ≠ [] := by
  induction n with
  | nil => simp [splitDot]
  | cons b rest ih =>
    rw [splitDot]
    split
    · simp
    · cases h : splitDot rest with
      | nil => simp
      | cons l ls => simp

theorem joinDot_splitDot (n : List Nat) : joinDot (splitDot n) = n := by
  induction n with
  | nil => rfl
  | cons b rest ih =>
    rw [splitDot]
    by_cases hb : b = 46
    · rw [if_pos hb]
      cases h : splitDot rest with
      | nil => exact absurd h (splitDot_ne_nil rest)
      | cons l ls =>
        rw [h] at ih
        rw [joinDot_cons₂, ← ih, hb]
        simp
    · rw [if_neg hb]
      cases h : splitDot rest with
      | nil => exact absurd h (splitDot_ne_nil rest)
      | cons l ls =>
        rw [h] at ih
        cases ls with
        | nil =>
          show b :: l = b :: rest
          rw [← ih]
          rfl
        | cons l2 ls2 =>
          rw [joinDot_cons₂] at ih ⊢
          show b :: (l ++ 46 :: joinDot (l2 :: ls2)) = b :: rest
          rw [ih]

theorem joinDot_single (l : List Nat) : joinDot [l] = l := rfl

theorem joinDot_append (xs ys : List (List Nat)) (hx : xs ≠ []) (hy : ys ≠ []) :
    joinDot (xs ++ ys) = joinDot xs ++ 46 :: joinDot ys := by
  induction xs with
  | nil => exact absurd rfl hx
  | cons x xs ih =>
    cases xs with
    | nil =>
      cases ys with
      | nil => exact absurd rfl hy
      | cons y ys =>
        simp [joinDot_cons₂, joinDot_single]
    | cons x2 xs2 =>
      have h2 : (x2 :: xs2 : List (List Nat)) ≠ [] := by simp
      calc joinDot ((x :: x2 :: xs2) ++ ys)
          = x ++ 46 :: joinDot ((x2 :: xs2) ++ ys) := joinDot_cons₂ x x2 (xs2 ++ ys)
        _ = x ++ 46 :: (joinDot (x2 :: xs2) ++ 46 :: joinDot ys) := by rw [ih h2]
        _ = joinDot (x :: x2 :: xs2) ++ 46 :: joinDot ys := by
            rw [joinDot_cons₂]
            simp

theorem joinDot_append_join (xs ys : List (List Nat)) (hy : ys ≠ []) :
    joinDot (xs ++ [joinDot ys]) = joinDot (xs ++ ys) := by
  cases xs with
  | nil => rfl
  | cons x xs =>
    rw [joinDot_append (x :: xs) [joinDot ys] (by simp) (by simp),
        joinDot_append (x :: xs) ys (by simp) hy, joinDot_single]

theorem joinDot_ne_nil (l : List Nat) (ls : List (List Nat)) (hl : l ≠ []) :
    joinDot (l :: ls) ≠ [] := by
  cases ls with
  | nil => exact hl
  | cons l2 ls2 =>
    rw [joinDot_cons₂]
    simp

theorem length_joinDot_append (xs ys : List (List Nat)) (hx : xs ≠ []) (hy : ys ≠ []) :
    (joinDot ys).length < (joinDot (xs ++ ys)).length := by
  rw [joinDot_append xs ys hx hy]
  simp
  omega



theorem readNameAux_mono (data : List Nat) :
    ∀ fuel fuel' orig visited labels off, fuel ≤ fuel' →
      readNameAux data fuel orig visited labels off ≠ .fuelOut →
      readNameAux data fuel' orig visited labels off = readNameAux data fuel orig visited labels off := by
  intro fuel
  induction fuel with
  | zero =>
    intro fuel' orig visited labels off hle hne
    simp [readNameAux] at hne
  | succ fuel ih =>
    intro fuel' orig visited labels off hle hne
    cases fuel' with
    | zero => omega
    | succ fuel'' =>
      have hle' : fuel ≤ fuel'' := by omega
      rw [readNameAux] at hne ⊢
      rw [readNameAux]
      split_ifs with h1 h2 h3 h4 h5 h6 h7 h8
      · rfl
      · rfl
      · rfl
      · rfl
      · rw [if_neg h1, if_neg h2, if_pos h3, if_neg h4, if_neg h5] at hne
        cases hr : readNameAux data fuel ((data.getD off 0 &&& 63) <<< 8 ||| data.getD (off + 1) 0)
            (insert orig visited) [] ((data.getD off 0 &&& 63) <<< 8 ||| data.getD (off + 1) 0) with
        | ok name o =>
          rw [ih fuel'' _ _ _ _ hle' (by rw [hr]; simp), hr]
        | err e =>
          rw [ih fuel'' _ _ _ _ hle' (by rw [hr]; simp), hr]
        | fuelOut =>
          rw [hr] at hne
          simp at hne
      · rfl
      · rfl
      · rfl
      · rw [if_neg h1, if_neg h2, if_neg h3, if_neg h6, if_neg h7, if_neg h8] at hne
        exact ih fuel'' _ _ _ _ hle' hne



theorem readNameAux_append (data ext : List Nat) :
    ∀ fuel orig visited labels off name e,
      readNameAux data fuel orig visited labels off = .ok name e →
      readNameAux (data ++ ext) fuel orig visited labels off = .ok name e := by
  intro fuel
  induction fuel with
  | zero =>
    intro orig visited labels off name e h
    simp [readNameAux] at h
  | succ fuel ih =>
    intro orig visited labels off name e h
    rw [readNameAux] at h
    by_cases h1 : data.length ≤ off
    · rw [if_pos h1] at h
      exact absurd h (by simp)
    rw [if_neg h1] at h
    have h1' : ¬ (data ++ ext).length ≤ off := by
      simp only [List.length_append]
      omega
    by_cases h2 : off ∈ visited
    · rw [if_pos h2] at h
      exact absurd h (by simp)
    rw [if_neg h2] at h
    have hoff : off < data.length := by omega
    have hgd : (data ++ ext).getD off 0 = data.getD off 0 := List.getD_append _ _ _ _ hoff
    rw [readNameAux, if_neg h1', if_neg h2, hgd]
    by_cases h3 : data.getD off 0 &&& 192 = 192
    · rw [if_pos h3] at h
      rw [if_pos h3]
      by_cases h4 : data.length ≤ off + 1
      · rw [if_pos h4] at h
        exact absurd h (by simp)
      rw [if_neg h4] at h
      have h4' : ¬ (data ++ ext).length ≤ off + 1 := by
        simp only [List.length_append]
        omega
      have hgd1 : (data ++ ext).getD (off + 1) 0 = data.getD (off + 1) 0 :=
        List.getD_append _ _ _ _ (by omega)
      rw [if_neg h4', hgd1]
      by_cases h5 : data.length ≤ (data.getD off 0 &&& 63) <<< 8 ||| data.getD (off + 1) 0
      · rw [if_pos h5] at h
        exact absurd h (by simp)
      rw [if_neg h5] at h
      have h5' : ¬ (data ++ ext).length ≤ (data.getD off 0 &&& 63) <<< 8 ||| data.getD (off + 1) 0 := by
        simp only [List.length_append]
        omega
      rw [if_neg h5']
      cases hr : readNameAux data fuel ((data.getD off 0 &&& 63) <<< 8 ||| data.getD (off + 1) 0)
          (insert orig visited) [] ((data.getD off 0 &&& 63) <<< 8 ||| data.getD (off + 1) 0) with
      | ok nm o =>
        rw [hr] at h
        rw [ih _ _ _ _ _ _ hr]
        exact h
      | err e2 =>
        rw [hr] at h
        simp at h
      | fuelOut =>
        rw [hr] at h
        simp at h
    · rw [if_neg h3] at h
      rw [if_neg h3]
      by_cases h6 : 63 < data.getD off 0
      · rw [if_pos h6] at h
        exact absurd h (by simp)
      rw [if_neg h6] at h
      rw [if_neg h6]
      by_cases h7 : data.getD off 0 = 0
      · rw [if_pos h7] at h
        rw [if_pos h7]
        exact h
      rw [if_neg h7] at h
      rw [if_neg h7]
      by_cases h8 : data.length < off + 1 + data.getD off 0
      · rw [if_pos h8] at h
        exact absurd h (by simp)
      rw [if_neg h8] at h
      have h8' : ¬ (data ++ ext).length < off + 1 + data.getD off 0 := by
        simp only [List.length_append]
        omega
      rw [if_neg h8']
      have hslice : ((data ++ ext).drop (off + 1)).take (data.getD off 0)
          = (data.drop (off + 1)).take (data.getD off 0) := by
        rw [List.drop_append_of_le_length (by omega),
            List.take_append_of_le_length (by simp only [List.length_drop]; omega)]
      rw [hslice]
      exact ih _ _ _ _ _ _ h



/-- Termination measure for the decoder: unvisited in-range offsets weighted
by the buffer length, plus the distance of the cursor to the end. -/
def muRN (data : List Nat) (visited : Finset Nat) (off : Nat) : Nat :=
  (data.length - (visited.filter (· < data.length)).card) * (data.length + 1)
    + (data.length + 1 - off)

theorem filter_card_le (L : Nat) (s : Finset Nat) : (s.filter (· < L)).card ≤ L := by
  have hsub : s.filter (· < L) ⊆ Finset.range L := by
    intro x hx
    simp only [Finset.mem_filter] at hx
    simpa using hx.2
  simpa using Finset.card_le_card hsub

theorem readNameAux_no_fuelOut (data : List Nat) :
    ∀ fuel orig visited labels off,
      (orig ∈ visited → off = orig) → orig ≤ off →
      muRN data visited off < fuel →
      readNameAux data fuel orig visited labels off ≠ .fuelOut := by
  intro fuel
  induction fuel with
  | zero =>
    intro orig visited labels off hH hle hmu
    omega
  | succ fuel ih =>
    intro orig visited labels off hH hle hmu
    rw [readNameAux]
    split_ifs with h1 h2 h3 h4 h5 h6 h7 h8
    · simp
    · simp
    · simp
    · simp
    · -- pointer branch
      have hoff : off < data.length := by omega
      have horigv : orig ∉ visited := by
        intro hmem
        exact h2 (hH hmem ▸ hmem)
      have hptr : (data.getD off 0 &&& 63) <<< 8 ||| data.getD (off + 1) 0 < data.length := by
        omega
      have hrec := ih ((data.getD off 0 &&& 63) <<< 8 ||| data.getD (off + 1) 0)
        (insert orig visited) []
        ((data.getD off 0 &&& 63) <<< 8 ||| data.getD (off + 1) 0)
        (fun _ => rfl) le_rfl ?_
      · cases hr : readNameAux data fuel ((data.getD off 0 &&& 63) <<< 8 ||| data.getD (off + 1) 0)
            (insert orig visited) [] ((data.getD off 0 &&& 63) <<< 8 ||| data.getD (off + 1) 0) with
        | ok nm o => simp
        | err e2 => simp
        | fuelOut => exact absurd hr hrec
      · -- measure decreases across the jump
        unfold muRN at hmu ⊢
        have horigL : orig < data.length := by omega
        have hfins : ((insert orig visited).filter (· < data.length)).card
            = (visited.filter (· < data.length)).card + 1 := by
          rw [Finset.filter_insert, if_pos (by simpa using horigL)]
          exact Finset.card_insert_of_not_mem (by
            intro hmem
            exact horigv (Finset.mem_of_mem_filter orig hmem))
        rw [hfins]
        have hkL : (visited.filter (· < data.length)).card + 1 ≤ data.length := by
          have hsub : insert orig (visited.filter (· < data.length)) ⊆ Finset.range data.length := by
            intro x hx
            rcases Finset.mem_insert.mp hx with hx | hx
            · subst hx
              simpa using horigL
            · simp only [Finset.mem_filter] at hx
              simpa using hx.2
          have := Finset.card_le_card hsub
          rw [Finset.card_insert_of_not_mem (by
            intro hmem
            exact horigv (Finset.mem_of_mem_filter orig hmem))] at this
          simpa using this
        set L := data.length with hLdef
        set k := (visited.filter (· < L)).card with hkdef
        have step1 : (L - (k + 1)) * (L + 1) + (L + 1 - ((data.getD off 0 &&& 63) <<< 8 ||| data.getD (off + 1) 0))
            ≤ (L - (k + 1)) * (L + 1) + (L + 1) := by omega
        have step2 : (L - (k + 1)) * (L + 1) + (L + 1) = (L - k) * (L + 1) := by
          have e : L - (k + 1) + 1 = L - k := by omega
          rw [← e, Nat.add_mul, one_mul]
        have step3 : (L - k) * (L + 1) < (L - k) * (L + 1) + (L + 1 - off) := by omega
        omega
    · simp
    · simp
    · simp
    · -- literal label branch
      have hoff : off < data.length := by omega
      have horigv : orig ∉ visited := by
        intro hmem
        exact h2 (hH hmem ▸ hmem)
      refine ih orig visited _ (off + 1 + data.getD off 0)
        (fun hmem => absurd hmem horigv) (by omega) ?_
      unfold muRN at hmu ⊢
      omega



/-- The decoder's fuel bound is sufficient: `readName` never runs out. -/
theorem readNameT_no_fuelOut (data : List Nat) (off : Nat) : readNameT data off ≠ .fuelOut := by
  unfold readNameT
  apply readNameAux_no_fuelOut data (bigFuel data) off ∅ [] off (fun _ => rfl) le_rfl
  unfold muRN bigFuel
  have e0 : ((∅ : Finset Nat).filter (· < data.length)).card = 0 := by simp
  rw [e0]
  have e1 : (data.length + 1) * (data.length + 1) = data.length * (data.length + 1) + (data.length + 1) := by
    rw [Nat.add_mul, one_mul]
  simp only [Nat.sub_zero]
  omega

theorem readUint16_cases (data : List Nat) (off : Nat) :
    readUint16 data off = .ok (be16 data off) (off + 2) ∨ readUint16 data off = .panic := by
  unfold readUint16
  split_ifs <;> simp

theorem readUint32_cases (data : List Nat) (off : Nat) :
    readUint32 data off = .ok (be32 data off) (off + 4) ∨ readUint32 data off = .panic := by
  unfold readUint32
  split_ifs <;> simp

theorem readQuestion_no_fuelOut (data : List Nat) (off : Nat) :
    readQuestion data off ≠ .fuelOut := by
  unfold readQuestion
  cases hn : readNameT data off with
  | fuelOut => exact absurd hn (readNameT_no_fuelOut data off)
  | err e => simp
  | ok name off1 =>
    dsimp only
    rcases readUint16_cases data off1 with h1 | h1
    · rw [h1]
      dsimp only
      rcases readUint16_cases data (off1 + 2) with h2 | h2
      · rw [h2]
        simp
      · rw [h2]
        simp
    · rw [h1]
      simp

theorem readResourceRecord_no_fuelOut (data : List Nat) (off : Nat) :
    readResourceRecord data off ≠ .fuelOut := by
  unfold readResourceRecord
  cases hn : readNameT data off with
  | fuelOut => exact absurd hn (readNameT_no_fuelOut data off)
  | err e => simp
  | ok name off1 =>
    dsimp only
    rcases readUint16_cases data off1 with h1 | h1
    · rw [h1]
      dsimp only
      rcases readUint16_cases data (off1 + 2) with h2 | h2
      · rw [h2]
        dsimp only
        rcases readUint32_cases data (off1 + 2 + 2) with h3 | h3
        · rw [h3]
          dsimp only
          rcases readUint16_cases data (off1 + 2 + 2 + 4) with h4 | h4
          · rw [h4]
            dsimp only
            split_ifs <;> simp
          · rw [h4]
            simp
        · rw [h3]
          simp
      · rw [h2]
        simp
    · rw [h1]
      simp

theorem readQuestions_no_fuelOut (data : List Nat) :
    ∀ n off, readQuestions data n off ≠ .fuelOut := by
  intro n
  induction n with
  | zero =>
    intro off
    simp [readQuestions]
  | succ n ih =>
    intro off
    rw [readQuestions]
    cases hq : readQuestion data off with
    | ok q off1 =>
      dsimp only
      cases hqs : readQuestions data n off1 with
      | ok qs off2 => simp
      | err e => simp
      | panic => simp
      | fuelOut => exact absurd hqs (ih off1)
    | err e => simp
    | panic => simp
    | fuelOut => exact absurd hq (readQuestion_no_fuelOut data off)

theorem readRRs_no_fuelOut (data : List Nat) :
    ∀ n off, readRRs data n off ≠ .fuelOut := by
  intro n
  induction n with
  | zero =>
    intro off
    simp [readRRs]
  | succ n ih =>
    intro off
    rw [readRRs]
    cases hq : readResourceRecord data off with
    | ok q off1 =>
      dsimp only
      cases hqs : readRRs data n off1 with
      | ok qs off2 => simp
      | err e => simp
      | panic => simp
      | fuelOut => exact absurd hqs (ih off1)
    | err e => simp
    | panic => simp
    | fuelOut => exact absurd hq (readResourceRecord_no_fuelOut data off)

/-- The whole parser terminates: the fuel bound is never exhausted. -/
theorem ParseMessage_no_fuelOut (data : List Nat) : ParseMessage data ≠ .fuelOut := by
  unfold ParseMessage
  cases hh : parseHeader data with
  | error e => simp
  | ok h =>
    dsimp only
    cases hq : readQuestions data h.QDCount 12 with
    | fuelOut => exact absurd hq (readQuestions_no_fuelOut data _ _)
    | err e => simp
    | panic => simp
    | ok qs off1 =>
      dsimp only
      cases ha : readRRs data h.ANCount off1 with
      | fuelOut => exact absurd ha (readRRs_no_fuelOut data _ _)
      | err e => simp
      | panic => simp
      | ok ans off2 =>
        dsimp only
        cases hu : readRRs data h.NSCount off2 with
        | fuelOut => exact absurd hu (readRRs_no_fuelOut data _ _)
        | err e => simp
        | panic => simp
        | ok auth off3 =>
          dsimp only
          cases hd : readRRs data h.ARCount off3 with
          | fuelOut => exact absurd hd (readRRs_no_fuelOut data _ _)
          | err e => simp
          | panic => simp
          | ok add off4 => simp

/-- Transfer an `ok` decode at any fuel to the canonical fuel bound. -/
theorem readNameT_of_aux (data : List Nat) (off : Nat) (name : List Nat) (e : Nat)
    (h : ∃ fuel, readNameAux data fuel off ∅ [] off = .ok name e) :
    readNameT data off = .ok name e := by
  obtain ⟨fuel, hf⟩ := h
  have hne : readNameAux data fuel off ∅ [] off ≠ .fuelOut := by
    rw [hf]
    simp
  have h1 : readNameAux data (fuel + bigFuel data) off ∅ [] off = .ok name e := by
    rw [readNameAux_mono data fuel (fuel + bigFuel data) off ∅ [] off (by omega) hne]
    exact hf
  have h2 : readNameAux data (bigFuel data) off ∅ [] off ≠ .fuelOut :=
    readNameT_no_fuelOut data off
  have h3 : readNameAux data (fuel + bigFuel data) off ∅ [] off
      = readNameAux data (bigFuel data) off ∅ [] off :=
    readNameAux_mono data (bigFuel data) (fuel + bigFuel data) off ∅ [] off (by omega) h2
  rw [readNameT, ← h3, h1]


end DnsGo

namespace DnsGo

/-! ### Structural facts about the encoder: it only appends bytes -/

theorem encodeLabels_append_ex : ∀ (labels : List (List Nat)) (buf : List Nat) (m : OffMap),
    ∃ t, (encodeLabels labels buf m).1 = buf ++ t ∧ t ≠ [] := by
  intro labels
  induction labels with
  | nil =>
    intro buf m
    exact ⟨[0], rfl, by simp⟩
  | cons l rest ih =>
    intro buf m
    rw [encodeLabels]
    cases hlk : lookupKey (joinDot (l :: rest)) m with
    | some pos => exact ⟨_, rfl, by simp⟩
    | none =>
      obtain ⟨t, ht, hne⟩ := ih (buf ++ l.length % 256 :: l) ((joinDot (l :: rest), buf.length) :: m)
      exact ⟨l.length % 256 :: l ++ t, by rw [ht]; simp, by simp⟩

theorem encodeName_append_ex (name : List Nat) (buf : List Nat) (m : OffMap) :
    ∃ t, (encodeName name buf m).1 = buf ++ t ∧ t ≠ [] := by
  unfold encodeName
  split_ifs
  · exact ⟨[0], rfl, by simp⟩
  · exact encodeLabels_append_ex _ buf m

theorem encodeQuestion_append_ex (q : Question) (buf : List Nat) (m : OffMap) :
    ∃ t, (encodeQuestion q buf m).1 = buf ++ t := by
  unfold encodeQuestion
  obtain ⟨t, ht, _⟩ := encodeName_append_ex q.Name buf m
  exact ⟨t ++ (u16be q.QType ++ u16be q.QClass), by rw [ht]; simp⟩

theorem encodeRR_append_ex (rr : ResourceRecord) (buf : List Nat) (m : OffMap) :
    ∃ t, (encodeRR rr buf m).1 = buf ++ t := by
  unfold encodeRR
  obtain ⟨t, ht, _⟩ := encodeName_append_ex rr.Name buf m
  exact ⟨t ++ (u16be rr.Ty ++ u16be rr.Class ++ u32be rr.TTL ++ u16be rr.RData.length ++ rr.RData),
    by rw [ht]; simp⟩

theorem encodeQuestions_append_ex : ∀ (qs : List Question) (buf : List Nat) (m : OffMap),
    ∃ t, (encodeQuestions qs buf m).1 = buf ++ t := by
  intro qs
  induction qs with
  | nil =>
    intro buf m
    exact ⟨[], by simp [encodeQuestions]⟩
  | cons q qs ih =>
    intro buf m
    rw [encodeQuestions]
    obtain ⟨t1, ht1⟩ := encodeQuestion_append_ex q buf m
    obtain ⟨t2, ht2⟩ := ih (encodeQuestion q buf m).1 (encodeQuestion q buf m).2
    exact ⟨t1 ++ t2, by rw [ht2, ht1]; simp⟩

theorem encodeRRs_append_ex : ∀ (rrs : List ResourceRecord) (buf : List Nat) (m : OffMap),
    ∃ t, (encodeRRs rrs buf m).1 = buf ++ t := by
  intro rrs
  induction rrs with
  | nil =>
    intro buf m
    exact ⟨[], by simp [encodeRRs]⟩
  | cons rr rrs ih =>
    intro buf m
    rw [encodeRRs]
    obtain ⟨t1, ht1⟩ := encodeRR_append_ex rr buf m
    obtain ⟨t2, ht2⟩ := ih (encodeRR rr buf m).1 (encodeRR rr buf m).2
    exact ⟨t1 ++ t2, by rw [ht2, ht1]; simp⟩

theorem encodeQuery_ex (q : Query) : ∃ t, encodeQuery q = encodeHeader q.Header ++ t := by
  unfold encodeQuery
  obtain ⟨t1, ht1⟩ := encodeQuestions_append_ex q.Questions (encodeHeader q.Header) []
  obtain ⟨t2, ht2⟩ := encodeRRs_append_ex q.Answers
    (encodeQuestions q.Questions (encodeHeader q.Header) []).1
    (encodeQuestions q.Questions (encodeHeader q.Header) []).2
  exact ⟨t1 ++ t2, by rw [ht2, ht1]; simp⟩

/-! ### Facts about parsed messages -/

theorem getD_mem_or_zero : ∀ (data : List Nat) (i : Nat), data.getD i 0 ∈ data ∨ data.getD i 0 = 0 := by
  intro data
  induction data with
  | nil =>
    intro i
    right
    simp
  | cons b rest ih =>
    intro i
    cases i with
    | zero =>
      left
      simp
    | succ i =>
      rcases ih i with h | h
      · left
        simp only [List.getD_cons_succ]
        exact List.mem_cons_of_mem b h
      · right
        simpa using h

theorem getD_lt_256 (data : List Nat) (i : Nat) (hbytes : ∀ b ∈ data, b < 256) :
    data.getD i 0 < 256 := by
  rcases getD_mem_or_zero data i with h | h
  · exact hbytes _ h
  · omega

theorem be16_lt (data : List Nat) (i : Nat) (hbytes : ∀ b ∈ data, b < 256) :
    be16 data i < 65536 := by
  unfold be16
  have h0 := getD_lt_256 data i hbytes
  have h1 := getD_lt_256 data (i + 1) hbytes
  rw [Nat.shiftLeft_eq]
  rw [lor_add_multiple (k := 8) (by omega) (by omega)]
  omega

theorem readQuestions_length (data : List Nat) :
    ∀ n off qs off2, readQuestions data n off = .ok qs off2 → qs.length = n := by
  intro n
  induction n with
  | zero =>
    intro off qs off2 h
    rw [readQuestions] at h
    simp only [PRes.ok.injEq] at h
    rw [← h.1]
    rfl
  | succ n ih =>
    intro off qs off2 h
    rw [readQuestions] at h
    cases hq : readQuestion data off with
    | ok q off1 =>
      rw [hq] at h
      dsimp only at h
      cases hqs : readQuestions data n off1 with
      | ok qs1 off3 =>
        rw [hqs] at h
        simp only [PRes.ok.injEq] at h
        rw [← h.1]
        simp [ih off1 qs1 off3 hqs]
      | err e =>
        rw [hqs] at h
        simp at h
      | panic =>
        rw [hqs] at h
        simp at h
      | fuelOut =>
        rw [hqs] at h
        simp at h
    | err e =>
      rw [hq] at h
      simp at h
    | panic =>
      rw [hq] at h
      simp at h
    | fuelOut =>
      rw [hq] at h
      simp at h

/-- A successfully parsed message has as many questions as its QDCOUNT, and
its header comes from `parseHeader`. -/
theorem ParseMessage_shape (data : List Nat) (m : Message) (h : ParseMessage data = .ok m) :
    parseHeader data = .ok m.Header ∧ m.Questions.length = m.Header.QDCount := by
  unfold ParseMessage at h
  cases hh : parseHeader data with
  | error e =>
    rw [hh] at h
    simp at h
  | ok hd =>
    rw [hh] at h
    dsimp only at h
    cases hq : readQuestions data hd.QDCount 12 with
    | ok qs off1 =>
      rw [hq] at h
      dsimp only at h
      cases ha : readRRs data hd.ANCount off1 with
      | ok ans off2 =>
        rw [ha] at h
        dsimp only at h
        cases hu : readRRs data hd.NSCount off2 with
        | ok auth off3 =>
          rw [hu] at h
          dsimp only at h
          cases hd2 : readRRs data hd.ARCount off3 with
          | ok add off4 =>
            rw [hd2] at h
            simp only [MRes.ok.injEq] at h
            subst h
            exact ⟨rfl, readQuestions_length data hd.QDCount 12 qs off1 hq⟩
          | err e =>
            rw [hd2] at h
            simp at h
          | panic =>
            rw [hd2] at h
            simp at h
          | fuelOut =>
            rw [hd2] at h
            simp at h
        | err e =>
          rw [hu] at h
          simp at h
        | panic =>
          rw [hu] at h
          simp at h
        | fuelOut =>
          rw [hu] at h
          simp at h
      | err e =>
        rw [ha] at h
        simp at h
      | panic =>
        rw [ha] at h
        simp at h
      | fuelOut =>
        rw [ha] at h
        simp at h
    | err e =>
      rw [hq] at h
      simp at h
    | panic =>
      rw [hq] at h
      simp at h
    | fuelOut =>
      rw [hq] at h
      simp at h

theorem parseHeader_QDCount_lt (data : List Nat) (hd : Header)
    (hbytes : ∀ b ∈ data, b < 256) (h : parseHeader data = .ok hd) :
    hd.QDCount < 65536 := by
  unfold parseHeader at h
  split_ifs at h with hlen
  simp only [Except.ok.injEq] at h
  subst h
  exact be16_lt data 4 hbytes

end DnsGo

namespace DnsGo

/-- Discriminator for the fuel-exhaustion outcome of the parser. -/
def MRes.isFuelOut : MRes → Bool
  | .fuelOut => true
  | _ => false

/-- C4: name decoding terminates on every input buffer (the parser never
exhausts its fuel bound, which models termination of the Go recursion), and
on the concrete datagram whose bytes at offset 0x0C are `C0 0C` (a pointer
to itself) parsing returns the CompressionLoop error. -/
theorem C4_termination_and_compression_loop :
    (∀ data : List Nat, (ParseMessage data).isFuelOut = false) ∧
    ParseMessage [18, 52, 0, 0, 0, 1, 0, 0, 0, 0, 0, 0, 192, 12] = .err .compressionLoop := by
  constructor
  · intro data
    cases h : ParseMessage data with
    | fuelOut => exact absurd h (ParseMessage_no_fuelOut data)
    | ok m => rfl
    | err e => rfl
    | panic => rfl
  · decide

/-- C2 (code bug): the fixed-width field reads after a name are not bounds
checked.  On the 13-byte datagram holding a header with QDCOUNT = 1 and a
root name, `readUint16` indexes past the end of the buffer: a Go runtime
panic, not a structured parse error. -/
theorem C2_fixed_field_read_panics :
    ParseMessage [0, 0, 0, 0, 0, 1, 0, 0, 0, 0, 0, 0, 0] = .panic := by decide

/-- C3 (code bug): on a datagram that fails to parse, the server loop does
not `continue`; it dereferences the nil message pointer and crashes (in
either mode), instead of sending no response and continuing. -/
theorem C3_parse_error_crashes_loop :
    (∀ (forward : Bool) (exch : Nat → Question → UpRes),
      handleDatagram forward exch [] = .crash) ∧
    ParseMessage [] = .err .shortHeader := by
  constructor
  · intro forward exch
    rfl
  · rfl

/-- C5 (amended): a length byte with high bits 01 or 10 (value 64..191) fails
name decoding with the same LabelTooLong error that an over-long literal
label produces; the source defines no separate ReservedLabel error kind. -/
theorem C5_reserved_label_bits_amended (data : List Nat) (orig off : Nat) (visited : Finset Nat)
    (labels : List (List Nat)) (fuel : Nat)
    (hoff : off < data.length) (hvis : off ∉ visited)
    (hb1 : 64 ≤ data.getD off 0) (hb2 : data.getD off 0 < 192) :
    readNameAux data (fuel + 1) orig visited labels off = .err .labelTooLong := by
  rw [readNameAux, if_neg (by omega), if_neg hvis,
      if_neg (mid_not_ptrByte (data.getD off 0) hb2 hb1), if_pos (by omega)]

/-- C5 witness: the amended theorem applied to a concrete buffer with the
reserved byte 0x80 at the start of a question name. -/
theorem C5_reserved_label_bits_amended_witness :
    readNameAux [0, 0, 0, 0, 0, 1, 0, 0, 0, 0, 0, 0, 128, 0] (0 + 1) 12 ∅ [] 12
      = .err .labelTooLong :=
  C5_reserved_label_bits_amended [0, 0, 0, 0, 0, 1, 0, 0, 0, 0, 0, 0, 128, 0] 12 12 ∅ [] 0
    (by decide) (by decide) (by decide) (by decide)

/-- C5 counterexample: both a reserved length byte (0x80, high bits 10; also
0x40, high bits 01) and the claim's over-long-label case decode to the one
LabelTooLong error kind; no distinct ReservedLabel error exists in the code,
whose error type is exhausted by the eight `fmt.Errorf` sites. -/
theorem C5_counterexample :
    readNameT [0, 0, 0, 0, 0, 1, 0, 0, 0, 0, 0, 0, 128, 0] 12 = .err .labelTooLong ∧
    readNameT [0, 0, 0, 0, 0, 1, 0, 0, 0, 0, 0, 0, 64] 12 = .err .labelTooLong := by
  constructor
  · decide
  · decide

/-- C7: the single-question upstream query built by the forwarder echoes the
incoming ID, Opcode and RD, clears QR/AA/TC/RA/Z/RCODE, sets QDCOUNT = 1 and
all other counts to zero, and carries exactly the one question and no
answers. -/
theorem C7_single_question_query (m : Message) (q : Question) :
    (singleQuery m q).Header.ID = m.Header.ID ∧
    (singleQuery m q).Header.Opcode = m.Header.Opcode ∧
    (singleQuery m q).Header.QR = false ∧
    (singleQuery m q).Header.AA = false ∧
    (singleQuery m q).Header.TC = false ∧
    (singleQuery m q).Header.RD = m.Header.RD ∧
    (singleQuery m q).Header.RA = false ∧
    (singleQuery m q).Header.Z = 0 ∧
    (singleQuery m q).Header.RCode = 0 ∧
    (singleQuery m q).Header.QDCount = 1 ∧
    (singleQuery m q).Header.ANCount = 0 ∧
    (singleQuery m q).Header.NSCount = 0 ∧
    (singleQuery m q).Header.ARCount = 0 ∧
    (singleQuery m q).Questions = [q] ∧
    (singleQuery m q).Answers = [] :=
  ⟨rfl, rfl, rfl, rfl, rfl, rfl, rfl, rfl, rfl, rfl, rfl, rfl, rfl, rfl, rfl⟩

/-- C10: when a name's label sequence ends in a compression pointer whose
target decodes to the empty (root) name, the decoder returns exactly the
labels read before the pointer joined with dots, appending no empty label
for the root suffix. -/
theorem C10_pointer_to_root (data : List Nat) (orig off : Nat) (visited : Finset Nat)
    (labels : List (List Nat)) (fuel : Nat) (e : Nat)
    (hoff : off + 1 < data.length) (hvis : off ∉ visited)
    (hb : data.getD off 0 &&& 192 = 192)
    (hptr : (data.getD off 0 &&& 63) <<< 8 ||| data.getD (off + 1) 0 < data.length)
    (hroot : readNameAux data fuel ((data.getD off 0 &&& 63) <<< 8 ||| data.getD (off + 1) 0)
      (insert orig visited) [] ((data.getD off 0 &&& 63) <<< 8 ||| data.getD (off + 1) 0)
      = .ok [] e) :
    readNameAux data (fuel + 1) orig visited labels off = .ok (joinDot labels) (off + 2) := by
  rw [readNameAux, if_neg (by omega), if_neg hvis, if_pos hb, if_neg (by omega),
      if_neg (by omega), hroot]
  dsimp only
  rw [if_pos rfl]

/-- C10 witness: in a concrete datagram whose second question is the label
`a` followed by a pointer to the first question's root name, decoding from
the pointer position returns just `a` with no trailing empty label. -/
theorem C10_pointer_to_root_witness :
    readNameAux [0, 0, 0, 0, 0, 2, 0, 0, 0, 0, 0, 0, 0, 0, 1, 0, 1, 1, 97, 192, 12, 0, 1, 0, 1]
      (1 + 1) 17 ∅ [[97]] 19 = .ok [97] 21 :=
  C10_pointer_to_root [0, 0, 0, 0, 0, 2, 0, 0, 0, 0, 0, 0, 0, 0, 1, 0, 1, 1, 97, 192, 12, 0, 1, 0, 1]
    17 19 ∅ [[97]] 1 13 (by decide) (by decide) (by decide) (by decide) (by decide)

end DnsGo

namespace DnsGo

/-- A query whose header claims five questions but which carries none; used
to refute the claim that the writer derives counts from the sequences. -/
def countsMismatchQuery : Query :=
  { Header := { ID := 0, QR := false, Opcode := 0, AA := false, TC := false,
                RD := false, RA := false, Z := 0, RCode := 0, QDCount := 5,
                ANCount := 0, NSCount := 0, ARCount := 0 },
    Questions := [], Answers := [] }

/-- C6 counterexample: `Query.Encode` writes the caller-supplied header
counts verbatim; a query whose header says QDCOUNT = 5 but which has no
questions encodes QDCOUNT = 5 while the sequence length is 0. -/
theorem C6_counterexample :
    be16 (encodeQuery countsMismatchQuery) 4 = 5 ∧
    countsMismatchQuery.Questions.length = 0 := by
  constructor
  · decide
  · decide

/-- C6 (amended): the encoded QDCOUNT, ANCOUNT, NSCOUNT and ARCOUNT equal
the count fields of the header supplied by the caller, not lengths derived
by the writer; when the header's counts are set to the sequence lengths (as
at every call site in the server: QDCount and ANCount from the slices,
NSCount = ARCount = 0), the encoded counts equal those lengths. -/
theorem C6_counts_amended (q : Query)
    (hqd : q.Header.QDCount = q.Questions.length)
    (han : q.Header.ANCount = q.Answers.length)
    (hns : q.Header.NSCount = 0) (har : q.Header.ARCount = 0)
    (hq16 : q.Questions.length < 65536) (ha16 : q.Answers.length < 65536) :
    be16 (encodeQuery q) 4 = q.Questions.length ∧
    be16 (encodeQuery q) 6 = q.Answers.length ∧
    be16 (encodeQuery q) 8 = 0 ∧ be16 (encodeQuery q) 10 = 0 := by
  obtain ⟨t, ht⟩ := encodeQuery_ex q
  rw [ht]
  have hlist : encodeHeader q.Header ++ t
      = (q.Header.ID >>> 8) % 256 :: q.Header.ID % 256 ::
        (headerFlags q.Header >>> 8) % 256 :: headerFlags q.Header % 256 ::
        (q.Header.QDCount >>> 8) % 256 :: q.Header.QDCount % 256 ::
        (q.Header.ANCount >>> 8) % 256 :: q.Header.ANCount % 256 ::
        (q.Header.NSCount >>> 8) % 256 :: q.Header.NSCount % 256 ::
        (q.Header.ARCount >>> 8) % 256 :: q.Header.ARCount % 256 :: t := by
    simp [encodeHeader, u16be]
  rw [hlist]
  simp only [be16, List.getD_cons_zero, List.getD_cons_succ]
  refine ⟨?_, ?_, ?_, ?_⟩
  · rw [hqd, be16_of_u16 _ hq16]
  · rw [han, be16_of_u16 _ ha16]
  · rw [hns]
    decide
  · rw [har]
    decide

/-- A two-question, one-answer query whose header counts match its
sequences; used as the concrete witness input for several claims. -/
def matchedCountsQuery : Query :=
  { Header := { ID := 7, QR := true, Opcode := 0, AA := false, TC := false,
                RD := false, RA := false, Z := 0, RCode := 0, QDCount := 2,
                ANCount := 1, NSCount := 0, ARCount := 0 },
    Questions := [{ Name := [97], QType := 1, QClass := 1 },
                  { Name := [98], QType := 1, QClass := 1 }],
    Answers := [{ Name := [97], Ty := 1, Class := 1, TTL := 60, RData := [8, 8, 8, 8] }] }

/-- C6 witness: the amended theorem applied to a concrete two-question,
one-answer query whose header counts match its sequences. -/
theorem C6_counts_amended_witness :
    be16 (encodeQuery matchedCountsQuery) 4 = matchedCountsQuery.Questions.length ∧
    be16 (encodeQuery matchedCountsQuery) 6 = matchedCountsQuery.Answers.length ∧
    be16 (encodeQuery matchedCountsQuery) 8 = 0 ∧
    be16 (encodeQuery matchedCountsQuery) 10 = 0 :=
  C6_counts_amended matchedCountsQuery (by decide) (by decide) (by decide) (by decide)
    (by decide) (by decide)

end DnsGo

namespace DnsGo

/-- C8: in stub mode every successfully parsed message gets a response whose
header echoes ID, Opcode and RD, sets QR, clears AA/TC/RA/Z, has RCODE 4
exactly when the incoming Opcode is nonzero (0 otherwise), QDCOUNT equal to
the number of incoming questions and ANCOUNT equal to the number of
answers; one answer is synthesized per question with the same name,
TYPE = 1, CLASS = 1, TTL = 60 and RDATA = 8.8.8.8. -/
theorem C8_stub_response (data : List Nat) (m : Message) (exch : Nat → Question → UpRes)
    (hparse : ParseMessage data = .ok m) (hbytes : ∀ b ∈ data, b < 256) :
    handleDatagram false exch data
      = .sent (stubResponse m (if m.Header.Opcode ≠ 0 then 4 else 0)) ∧
    ∀ rc : Nat,
      (stubResponse m rc).Header.RCode = rc ∧
      (stubResponse m rc).Header.ID = m.Header.ID ∧
      (stubResponse m rc).Header.Opcode = m.Header.Opcode ∧
      (stubResponse m rc).Header.RD = m.Header.RD ∧
      (stubResponse m rc).Header.QR = true ∧
      (stubResponse m rc).Header.AA = false ∧
      (stubResponse m rc).Header.TC = false ∧
      (stubResponse m rc).Header.RA = false ∧
      (stubResponse m rc).Header.Z = 0 ∧
      (stubResponse m rc).Header.QDCount = m.Questions.length ∧
      (stubResponse m rc).Header.ANCount = (stubResponse m rc).Answers.length ∧
      (stubResponse m rc).Questions = m.Questions ∧
      (stubResponse m rc).Answers = m.Questions.map answerQuestion ∧
      ∀ q : Question, answerQuestion q
        = { Name := q.Name, Ty := 1, Class := 1, TTL := 60, RData := [8, 8, 8, 8] } := by
  have hlen : m.Questions.length < 65536 := by
    obtain ⟨hph, hlen⟩ := ParseMessage_shape data m hparse
    rw [hlen]
    exact parseHeader_QDCount_lt data m.Header hbytes hph
  constructor
  · unfold handleDatagram
    rw [hparse]
    simp
  · intro rc
    refine ⟨rfl, rfl, rfl, rfl, rfl, rfl, rfl, rfl, rfl, ?_, ?_, rfl, rfl, fun q => rfl⟩
    · show m.Questions.length % 65536 = m.Questions.length
      exact Nat.mod_eq_of_lt hlen
    · show m.Questions.length % 65536 = (m.Questions.map answerQuestion).length
      rw [List.length_map]
      exact Nat.mod_eq_of_lt hlen

/-- The concrete 20-byte single-question datagram used as the C8 witness. -/
def stubWitnessData : List Nat :=
  [18, 52, 1, 0, 0, 1, 0, 0, 0, 0, 0, 0, 2, 97, 98, 0, 0, 1, 0, 1]

/-- The message that `stubWitnessData` parses to. -/
def stubWitnessMsg : Message :=
  { Header := { ID := 4660, QR := false, Opcode := 0, AA := false, TC := false,
                RD := true, RA := false, Z := 0, RCode := 0, QDCount := 1,
                ANCount := 0, NSCount := 0, ARCount := 0 },
    Questions := [{ Name := [97, 98], QType := 1, QClass := 1 }],
    Answers := [], Authorities := [], Additionals := [] }

/-- C8 witness: the stub-response theorem applied to a concrete parsed
single-question datagram. -/
theorem C8_stub_response_witness :
    handleDatagram false (fun _ _ => UpRes.writeErr) stubWitnessData
      = .sent (stubResponse stubWitnessMsg (if stubWitnessMsg.Header.Opcode ≠ 0 then 4 else 0)) ∧
    ∀ rc : Nat,
      (stubResponse stubWitnessMsg rc).Header.RCode = rc ∧
      (stubResponse stubWitnessMsg rc).Header.ID = stubWitnessMsg.Header.ID ∧
      (stubResponse stubWitnessMsg rc).Header.Opcode = stubWitnessMsg.Header.Opcode ∧
      (stubResponse stubWitnessMsg rc).Header.RD = stubWitnessMsg.Header.RD ∧
      (stubResponse stubWitnessMsg rc).Header.QR = true ∧
      (stubResponse stubWitnessMsg rc).Header.AA = false ∧
      (stubResponse stubWitnessMsg rc).Header.TC = false ∧
      (stubResponse stubWitnessMsg rc).Header.RA = false ∧
      (stubResponse stubWitnessMsg rc).Header.Z = 0 ∧
      (stubResponse stubWitnessMsg rc).Header.QDCount = stubWitnessMsg.Questions.length ∧
      (stubResponse stubWitnessMsg rc).Header.ANCount
        = (stubResponse stubWitnessMsg rc).Answers.length ∧
      (stubResponse stubWitnessMsg rc).Questions = stubWitnessMsg.Questions ∧
      (stubResponse stubWitnessMsg rc).Answers = stubWitnessMsg.Questions.map answerQuestion ∧
      ∀ q : Question, answerQuestion q
        = { Name := q.Name, Ty := 1, Class := 1, TTL := 60, RData := [8, 8, 8, 8] } :=
  C8_stub_response stubWitnessData stubWitnessMsg (fun _ _ => UpRes.writeErr)
    (by decide) (by decide)

/-- The per-question upstream contribution the claim describes: answers of a
successfully parsed reply, nothing on a write or read failure or a parse
error (the dial case is excluded by hypothesis wherever this is used). -/
def upstreamContribution (exch : Nat → Question → UpRes) (i : Nat) (q : Question) :
    List ResourceRecord :=
  match exch i q with
  | .dialErr => []
  | .writeErr => []
  | .readErr => []
  | .reply bytes =>
    match ParseMessage bytes with
    | .ok r => r.Answers
    | _ => []

theorem collectAnswers_eq (exch : Nat → Question → UpRes)
    (hnd : ∀ i q, exch i q ≠ .dialErr)
    (hnp : ∀ i q bytes, exch i q = .reply bytes → ParseMessage bytes ≠ .panic) :
    ∀ (qs : List Question) (i : Nat),
      collectAnswers exch i qs
        = some (((List.enumFrom i qs).map fun p => upstreamContribution exch p.1 p.2).flatten) := by
  intro qs
  induction qs with
  | nil =>
    intro i
    simp [collectAnswers, List.enumFrom]
  | cons q qs ih =>
    intro i
    rw [collectAnswers]
    have hcontrib :
        (match exch i q with
          | .dialErr => none
          | .writeErr => some []
          | .readErr => some []
          | .reply bytes =>
            match ParseMessage bytes with
            | .ok r => some r.Answers
            | .err _ => some []
            | .panic => none
            | .fuelOut => none)
        = some (upstreamContribution exch i q) := by
      unfold upstreamContribution
      cases he : exch i q with
      | dialErr => exact absurd he (hnd i q)
      | writeErr => rfl
      | readErr => rfl
      | reply bytes =>
        dsimp only
        cases hp : ParseMessage bytes with
        | ok r => rfl
        | err e => rfl
        | panic => exact absurd hp (hnp i q bytes he)
        | fuelOut => exact absurd hp (ParseMessage_no_fuelOut bytes)
    rw [hcontrib, ih (i + 1)]
    simp [List.enumFrom]

/-- A dial failure on any question crashes the forwarder: the source logs
the dial error without `continue`, then calls `Write` on the nil
connection. No client response completes. -/
theorem dial_error_crashes :
    (∀ (m : Message) (exch : Nat → Question → UpRes) (q : Question) (qs : List Question),
      m.Questions = q :: qs → exch 0 q = .dialErr → forwardResponse m exch = .crash) ∧
    forwardResponse stubWitnessMsg (fun _ _ => .dialErr) = .crash := by
  constructor
  · intro m exch q qs hqs he
    unfold forwardResponse
    rw [hqs, collectAnswers, he]
  · decide

/-- C9 counterexample: a truncated upstream reply (13 bytes: QDCOUNT = 1
then a root name and nothing more) makes the upstream parse panic, so the
client response does not complete; the process crashes instead. -/
theorem C9_counterexample :
    forwardResponse stubWitnessMsg (fun _ _ => .reply [0, 0, 0, 0, 0, 1, 0, 0, 0, 0, 0, 0, 0])
      = .crash := by decide

/-- C9 (amended): provided no exchange fails at the UDP dial (that branch
lacks `continue`, so the nil connection's `Write` panics) and no upstream
reply triggers the parser's unchecked fixed-width read (the panic of C2),
an upstream write or read failure or parse error makes that question
contribute no answers while the remaining questions are still processed,
and the client response completes: RA is set, the answers are the
in-question-order concatenation of the successful questions' upstream
answers, ANCOUNT is their number, and the questions are echoed. -/
theorem C9_forwarder_skip_amended (m : Message) (exch : Nat → Question → UpRes)
    (hnd : ∀ i q, exch i q ≠ .dialErr)
    (hnp : ∀ i q bytes, exch i q = .reply bytes → ParseMessage bytes ≠ .panic)
    (hlen : (((List.enumFrom 0 m.Questions).map fun p =>
        upstreamContribution exch p.1 p.2).flatten).length < 65536)
    (hqlen : m.Questions.length < 65536) :
    forwardResponse m exch = .sent
      { Header := { ID := m.Header.ID, QR := true, Opcode := m.Header.Opcode, AA := false,
                    TC := false, RD := m.Header.RD, RA := true, Z := 0, RCode := 0,
                    QDCount := m.Questions.length,
                    ANCount := (((List.enumFrom 0 m.Questions).map fun p =>
                      upstreamContribution exch p.1 p.2).flatten).length,
                    NSCount := 0, ARCount := 0 },
        Questions := m.Questions,
        Answers := ((List.enumFrom 0 m.Questions).map fun p =>
          upstreamContribution exch p.1 p.2).flatten } := by
  unfold forwardResponse
  rw [collectAnswers_eq exch hnd hnp m.Questions 0]
  dsimp only
  rw [Nat.mod_eq_of_lt hqlen, Nat.mod_eq_of_lt hlen]


/-- A well-formed upstream reply datagram carrying one answer; parses
successfully. -/
def goodUpstreamReply : List Nat :=
  [0, 1, 128, 0, 0, 0, 0, 1, 0, 0, 0, 0,
   0, 0, 1, 0, 1, 0, 0, 0, 60, 0, 4, 8, 8, 8, 8]

/-- The concrete incoming message for the C9 witness: two questions. -/
def forwardWitnessMsg : Message :=
  { Header := { ID := 4660, QR := false, Opcode := 0, AA := false, TC := false,
                RD := true, RA := false, Z := 0, RCode := 0, QDCount := 2,
                ANCount := 0, NSCount := 0, ARCount := 0 },
    Questions := [{ Name := [97], QType := 1, QClass := 1 },
                  { Name := [98], QType := 1, QClass := 1 }],
    Answers := [], Authorities := [], Additionals := [] }

/-- The concrete upstream oracle for the C9 witness: the first question's
exchange fails at the UDP write, later ones return the good reply. -/
def forwardWitnessExch : Nat → Question → UpRes
  | 0, _ => .writeErr
  | _ + 1, _ => .reply goodUpstreamReply

/-- C9 witness: the amended theorem at a concrete two-question message whose
first question's upstream exchange fails at the write and whose second
succeeds with one answer; the response completes with exactly that answer. -/
theorem C9_forwarder_skip_amended_witness :
    forwardResponse forwardWitnessMsg forwardWitnessExch = .sent
      { Header := { ID := forwardWitnessMsg.Header.ID, QR := true,
                    Opcode := forwardWitnessMsg.Header.Opcode, AA := false,
                    TC := false, RD := forwardWitnessMsg.Header.RD, RA := true, Z := 0, RCode := 0,
                    QDCount := forwardWitnessMsg.Questions.length,
                    ANCount := (((List.enumFrom 0 forwardWitnessMsg.Questions).map fun p =>
                      upstreamContribution forwardWitnessExch p.1 p.2).flatten).length,
                    NSCount := 0, ARCount := 0 },
        Questions := forwardWitnessMsg.Questions,
        Answers := ((List.enumFrom 0 forwardWitnessMsg.Questions).map fun p =>
          upstreamContribution forwardWitnessExch p.1 p.2).flatten } :=
  C9_forwarder_skip_amended forwardWitnessMsg forwardWitnessExch
    (by
      intro i q
      cases i with
      | zero => simp [forwardWitnessExch]
      | succ i => simp [forwardWitnessExch])
    (by
      intro i q bytes he
      cases i with
      | zero => exact absurd he (by simp [forwardWitnessExch])
      | succ i =>
        rw [forwardWitnessExch] at he
        injection he with h
        subst h
        decide)
    (by decide) (by decide)

end DnsGo

namespace DnsGo

/-! ### Round-trip machinery: offset-table invariants -/

/-- A well-formed label: nonempty, at most 63 bytes, each entry a byte. -/
def wfLabel (l : List Nat) : Prop :=
  l ≠ [] ∧ l.length ≤ 63 ∧ ∀ b ∈ l, b < 256

/-- A well-formed name: the root (empty) name, or one whose dot-split labels
are all well-formed. -/
def wfName (n : List Nat) : Prop :=
  n = [] ∨ ∀ c ∈ splitDot n, wfLabel c

instance (l : List Nat) : Decidable (wfLabel l) := by
  unfold wfLabel
  infer_instance

instance (n : List Nat) : Decidable (wfName n) := by
  unfold wfName
  infer_instance

/-- Validity of one offset-table entry with respect to a buffer: decoding at
the recorded offset yields the recorded suffix, for any visited set whose
members lie at or beyond the bound `E` (the end of the entry's name region),
and the offset fits in a 14-bit pointer. -/
def EntryOk (data : List Nat) (bound : Nat) (e : List Nat × Nat) : Prop :=
  e.1 ≠ [] ∧ e.2 < data.length ∧ e.2 ≤ 16383 ∧
    ∃ E, e.2 < E ∧ E ≤ bound ∧
      ∀ visited : Finset Nat, (∀ v ∈ visited, E ≤ v) →
        ∃ fuel endo, readNameAux data fuel e.2 visited [] e.2 = .ok e.1 endo

/-- Message-level invariant: every recorded suffix decodes correctly in the
current buffer. -/
def MInv (buf : List Nat) (m : OffMap) : Prop :=
  ∀ e ∈ m, EntryOk buf buf.length e

theorem EntryOk_mono (data : List Nat) (B B' : Nat) (e : List Nat × Nat)
    (h : EntryOk data B e) (hB : B ≤ B') : EntryOk data B' e := by
  obtain ⟨h1, h2, h3, E, hE1, hE2, hdec⟩ := h
  exact ⟨h1, h2, h3, E, hE1, le_trans hE2 hB, hdec⟩

theorem EntryOk_append (data ext : List Nat) (B : Nat) (e : List Nat × Nat)
    (h : EntryOk data B e) : EntryOk (data ++ ext) B e := by
  obtain ⟨h1, h2, h3, E, hE1, hE2, hdec⟩ := h
  refine ⟨h1, by simp only [List.length_append]; omega, h3, E, hE1, hE2, ?_⟩
  intro visited hvis
  obtain ⟨fuel, endo, hrun⟩ := hdec visited hvis
  exact ⟨fuel, endo, readNameAux_append data ext fuel e.2 visited [] e.2 e.1 endo hrun⟩

theorem lookupKey_mem (k : List Nat) : ∀ (m : OffMap) (v : Nat),
    lookupKey k m = some v → (k, v) ∈ m := by
  intro m
  induction m with
  | nil =>
    intro v h
    simp [lookupKey] at h
  | cons e rest ih =>
    intro v h
    rw [lookupKey] at h
    split_ifs at h with he
    · simp only [Option.some.injEq] at h
      exact List.mem_cons.mpr (Or.inl (by cases e; simp_all))
    · exact List.mem_cons.mpr (Or.inr (ih v h))

end DnsGo

namespace DnsGo

theorem getD_append_self (buf : List Nat) (x : Nat) (t : List Nat) :
    (buf ++ x :: t).getD buf.length 0 = x := by
  rw [List.getD_append_right _ _ _ _ le_rfl]
  simp

theorem getD_append_snd (buf : List Nat) (x y : Nat) (t : List Nat) :
    (buf ++ x :: y :: t).getD (buf.length + 1) 0 = y := by
  rw [List.getD_append_right _ _ _ _ (by omega)]
  have : buf.length + 1 - buf.length = 1 := by omega
  rw [this]
  simp

theorem drop_cons_append (buf : List Nat) (x : Nat) (r : List Nat) :
    (buf ++ x :: r).drop (buf.length + 1) = r := by
  rw [show buf ++ x :: r = (buf ++ [x]) ++ r by simp]
  rw [show buf.length + 1 = (buf ++ [x]).length by simp]
  exact List.drop_left _ _

end DnsGo

namespace DnsGo

/-- Core correctness of the label-encoding loop: the written bytes extend the
buffer, every output offset-table entry is either valid for the new buffer
or was already present, and decoding from the write position recovers the
labels (appended to any accumulator), ending exactly at the new buffer end. -/
theorem encodeLabels_spec :
    ∀ (labels : List (List Nat)) (buf : List Nat) (m : OffMap) (B : Nat),
      (∀ l ∈ labels, wfLabel l) →
      B ≤ buf.length →
      (∀ e ∈ m, EntryOk buf B e ∨ (joinDot labels).length < e.1.length) →
      (encodeLabels labels buf m).1.length ≤ 16384 →
      (∃ t, (encodeLabels labels buf m).1 = buf ++ t ∧ t ≠ []) ∧
      (∀ e ∈ (encodeLabels labels buf m).2,
        EntryOk (encodeLabels labels buf m).1 (encodeLabels labels buf m).1.length e ∨ e ∈ m) ∧
      (∀ (orig : Nat) (acc : List (List Nat)) (visited : Finset Nat),
        B ≤ orig →
        (∀ v ∈ visited, (encodeLabels labels buf m).1.length ≤ v) →
        ∃ fuel, readNameAux (encodeLabels labels buf m).1 fuel orig visited acc buf.length
          = .ok (joinDot (acc ++ labels)) (encodeLabels labels buf m).1.length) := by
  intro labels
  induction labels with
  | nil =>
    intro buf m B hwf hB hm hfit
    have hres0 : encodeLabels ([] : List (List Nat)) buf m = (buf ++ [0], m) := rfl
    rw [hres0]
    dsimp only
    refine ⟨⟨[0], rfl, by simp⟩, fun e he => Or.inr he, ?_⟩
    intro orig acc visited horig hvis
    refine ⟨1, ?_⟩
    rw [readNameAux]
    rw [if_neg (by simp only [List.length_append, List.length_cons, List.length_nil]; omega)]
    rw [if_neg (by
      intro hmem
      have := hvis _ hmem
      simp only [List.length_append, List.length_cons, List.length_nil] at this
      omega)]
    rw [getD_append_self]
    rw [if_neg (by decide), if_neg (by decide), if_pos rfl]
    simp
  | cons l rest ih =>
    intro buf m B hwf hB hm hfit
    have hwl : wfLabel l := hwf l (List.mem_cons_self l rest)
    obtain ⟨hlne, hl63, hlbytes⟩ := hwl
    have hllen : 1 ≤ l.length := List.length_pos.mpr hlne
    cases hlk : lookupKey (joinDot (l :: rest)) m with
    | some pos =>
      have hres : encodeLabels (l :: rest) buf m
          = (buf ++ [(((49152 ||| pos) % 65536) >>> 8) % 256, ((49152 ||| pos) % 65536) % 256], m) := by
        rw [encodeLabels, hlk]
      have hment := lookupKey_mem _ m pos hlk
      have hEok : EntryOk buf B (joinDot (l :: rest), pos) := by
        rcases hm _ hment with h | h
        · exact h
        · exact absurd h (lt_irrefl _)
      obtain ⟨hkne, hposlen, hpos14, E, hE1, hE2, hdec⟩ := hEok
      have h49 : 49152 ||| pos = 49152 + pos := by
        have h2 : (2 ^ 14 * 3 : Nat) ||| pos = 2 ^ 14 * 3 + pos :=
          lor_eq_add 3 (by norm_num; omega)
      -- evaluate 2^14*3
        norm_num at h2
        exact h2
      have hb0 : (((49152 ||| pos) % 65536) >>> 8) % 256 = 192 + pos / 256 := by
        rw [h49, Nat.shiftRight_eq_div_pow]
        have e1 : (49152 + pos) % 65536 = 49152 + pos := by omega
        rw [e1]
        have e2 : (49152 + pos) / 2 ^ 8 = 192 + pos / 256 := by
          norm_num
          omega
        rw [e2]
        omega
      have hb1 : ((49152 ||| pos) % 65536) % 256 = pos % 256 := by
        rw [h49]
        omega
      rw [hres, hb0, hb1]
      dsimp only
      refine ⟨⟨_, rfl, by simp⟩, fun e he => Or.inr he, ?_⟩
      intro orig acc visited horig hvis
      have hEok' : EntryOk (buf ++ [192 + pos / 256, pos % 256]) B (joinDot (l :: rest), pos) :=
        EntryOk_append _ _ B _ ⟨hkne, hposlen, hpos14, E, hE1, hE2, hdec⟩
      obtain ⟨-, -, -, E', hE1', hE2', hdec'⟩ := hEok'
      obtain ⟨fuel0, endo, hrun⟩ := hdec' (insert orig visited) (by
        intro v hv
        rcases Finset.mem_insert.mp hv with rfl | hv
        · omega
        · have := hvis _ hv
          simp only [List.length_append, List.length_cons, List.length_nil] at this
          omega)
      refine ⟨fuel0 + 1, ?_⟩
      rw [readNameAux]
      rw [if_neg (by simp only [List.length_append, List.length_cons, List.length_nil]; omega)]
      rw [if_neg (by
        intro hmem
        have := hvis _ hmem
        simp only [List.length_append, List.length_cons, List.length_nil] at this
        omega)]
      rw [getD_append_self]
      rw [if_pos (ptrByte_and_hi (pos / 256) (by omega))]
      rw [if_neg (by simp only [List.length_append, List.length_cons, List.length_nil]; omega)]
      rw [getD_append_snd]
      have hptr_eq : ((192 + pos / 256) &&& 63) <<< 8 ||| pos % 256 = pos := by
        rw [ptrByte_and_lo (pos / 256) (by omega), Nat.shiftLeft_eq]
        norm_num
        rw [lor_add_multiple (k := 8) (by omega) (by omega)]
        omega
      rw [hptr_eq]
      rw [if_neg (by simp only [List.length_append, List.length_cons, List.length_nil]; omega)]
      rw [hrun]
      dsimp only
      rw [if_neg hkne]
      rw [joinDot_append_join acc (l :: rest) (by simp)]
      simp
    | none =>
      have hres : encodeLabels (l :: rest) buf m
          = encodeLabels rest (buf ++ l.length % 256 :: l) ((joinDot (l :: rest), buf.length) :: m) := by
        rw [encodeLabels, hlk]
      rw [hres] at hfit ⊢
      have hlenmod : l.length % 256 = l.length := Nat.mod_eq_of_lt (by omega)
      have hwr : ∀ l' ∈ rest, wfLabel l' := fun l' h => hwf l' (List.mem_cons_of_mem l h)
      have hB2 : B ≤ (buf ++ l.length % 256 :: l).length := by
        simp only [List.length_append, List.length_cons]
        omega
      have hjlt : (joinDot rest).length < (joinDot (l :: rest)).length := by
        cases rest with
        | nil =>
          show (joinDot []).length < (joinDot [l]).length
          simp only [joinDot, List.length_nil]
          omega
        | cons r rs => exact length_joinDot_append [l] (r :: rs) (by simp) (by simp)
      have hm2ok : ∀ e ∈ ((joinDot (l :: rest), buf.length) :: m : OffMap),
          EntryOk (buf ++ l.length % 256 :: l) B e ∨ (joinDot rest).length < e.1.length := by
        intro e he
        rcases List.mem_cons.mp he with rfl | he
        · exact Or.inr hjlt
        · rcases hm e he with h | h
          · exact Or.inl (EntryOk_append _ _ _ _ h)
          · right
            omega
      obtain ⟨⟨t, ht, htne⟩, hents, hdec⟩ :=
        ih (buf ++ l.length % 256 :: l) ((joinDot (l :: rest), buf.length) :: m) B hwr hB2 hm2ok hfit
      have hdata : (encodeLabels rest (buf ++ l.length % 256 :: l)
          ((joinDot (l :: rest), buf.length) :: m)).1 = buf ++ (l.length % 256 :: (l ++ t)) := by
        rw [ht]
        simp
      have hlen3 : (encodeLabels rest (buf ++ l.length % 256 :: l)
          ((joinDot (l :: rest), buf.length) :: m)).1.length
          = buf.length + 1 + l.length + t.length := by
        rw [hdata]
        simp only [List.length_append, List.length_cons]
        omega
      have htpos : 1 ≤ t.length := List.length_pos.mpr htne
      have hdecAll : ∀ (orig : Nat) (acc : List (List Nat)) (visited : Finset Nat),
          B ≤ orig →
          (∀ v ∈ visited, (encodeLabels rest (buf ++ l.length % 256 :: l)
            ((joinDot (l :: rest), buf.length) :: m)).1.length ≤ v) →
          ∃ fuel, readNameAux (encodeLabels rest (buf ++ l.length % 256 :: l)
              ((joinDot (l :: rest), buf.length) :: m)).1 fuel orig visited acc buf.length
            = .ok (joinDot (acc ++ l :: rest))
              (encodeLabels rest (buf ++ l.length % 256 :: l)
                ((joinDot (l :: rest), buf.length) :: m)).1.length := by
        intro orig acc visited horig hvis
        obtain ⟨fuel1, hrun1⟩ := hdec orig (acc ++ [l]) visited horig hvis
        refine ⟨fuel1 + 1, ?_⟩
        rw [readNameAux]
        rw [if_neg (by rw [hlen3]; omega)]
        rw [if_neg (by
          intro hmem
          have := hvis _ hmem
          rw [hlen3] at this
          omega)]
        rw [hdata, getD_append_self, hlenmod]
        rw [if_neg (small_not_ptrByte l.length (by omega))]
        rw [if_neg (by omega), if_neg (by omega)]
        rw [if_neg (by
          simp only [List.length_append, List.length_cons]
          omega)]
        rw [drop_cons_append, List.take_left]
        have hoff2 : buf.length + 1 + l.length = (buf ++ l.length % 256 :: l).length := by
          simp only [List.length_append, List.length_cons]
          omega
        rw [hoff2]
        rw [hdata] at hrun1
        rw [hlenmod] at hrun1 hoff2 ⊢
        rw [hrun1]
        have hjoin : joinDot ((acc ++ [l]) ++ rest) = joinDot (acc ++ l :: rest) := by
          rw [List.append_assoc]
          rfl
        rw [hjoin]
      refine ⟨⟨l.length % 256 :: l ++ t, by rw [ht]; simp, by simp⟩, ?_, hdecAll⟩
      intro e he
      rcases hents e he with h | h
      · exact Or.inl h
      · rcases List.mem_cons.mp h with rfl | h2
        · left
          refine ⟨joinDot_ne_nil l rest hlne,
            by show buf.length < _; rw [hlen3]; omega,
            by show buf.length ≤ 16383; rw [hlen3] at hfit; omega,
            (encodeLabels rest (buf ++ l.length % 256 :: l)
              ((joinDot (l :: rest), buf.length) :: m)).1.length,
            by show buf.length < _; rw [hlen3]; omega, le_rfl, ?_⟩
          intro visited hvis
          obtain ⟨fuel, hrun⟩ := hdecAll buf.length [] visited hB hvis
          exact ⟨fuel, _, hrun⟩
        · exact Or.inr h2

end DnsGo

namespace DnsGo

theorem getD_append_idx (buf s : List Nat) (i : Nat) :
    (buf ++ s).getD (buf.length + i) 0 = s.getD i 0 := by
  rw [List.getD_append_right _ _ _ _ (by omega)]
  congr 1
  omega

theorem readUint16_at (buf : List Nat) (v : Nat) (t : List Nat) (hv : v < 65536) :
    readUint16 (buf ++ (u16be v ++ t)) buf.length = .ok v (buf.length + 2) := by
  unfold readUint16
  rw [if_pos (by simp only [u16be, List.length_append, List.length_cons, List.length_nil]; omega)]
  unfold be16 u16be
  have h0 : (buf ++ ([(v >>> 8) % 256, v % 256] ++ t)).getD buf.length 0 = (v >>> 8) % 256 := by
    rw [show buf ++ ([(v >>> 8) % 256, v % 256] ++ t) = buf ++ (v >>> 8) % 256 :: (v % 256 :: t) from by simp]
    exact getD_append_self _ _ _
  have h1 : (buf ++ ([(v >>> 8) % 256, v % 256] ++ t)).getD (buf.length + 1) 0 = v % 256 := by
    rw [show buf ++ ([(v >>> 8) % 256, v % 256] ++ t) = buf ++ (v >>> 8) % 256 :: (v % 256 :: t) from by simp]
    exact getD_append_snd _ _ _ _
  rw [h0, h1, be16_of_u16 v hv]

theorem readUint32_at (buf : List Nat) (v : Nat) (t : List Nat) (hv : v < 4294967296) :
    readUint32 (buf ++ (u32be v ++ t)) buf.length = .ok v (buf.length + 4) := by
  unfold readUint32
  rw [if_pos (by simp only [u32be, List.length_append, List.length_cons, List.length_nil]; omega)]
  unfold be32 u32be
  have hs : buf ++ ([(v >>> 24) % 256, (v >>> 16) % 256, (v >>> 8) % 256, v % 256] ++ t)
      = buf ++ ((v >>> 24) % 256 :: ((v >>> 16) % 256 :: ((v >>> 8) % 256 :: (v % 256 :: t)))) := by
    simp
  have h0 : (buf ++ ([(v >>> 24) % 256, (v >>> 16) % 256, (v >>> 8) % 256, v % 256] ++ t)).getD buf.length 0
      = (v >>> 24) % 256 := by
    rw [hs]
    exact getD_append_self _ _ _
  have h1 : (buf ++ ([(v >>> 24) % 256, (v >>> 16) % 256, (v >>> 8) % 256, v % 256] ++ t)).getD (buf.length + 1) 0
      = (v >>> 16) % 256 := by
    rw [hs]
    exact getD_append_snd _ _ _ _
  have h2 : (buf ++ ([(v >>> 24) % 256, (v >>> 16) % 256, (v >>> 8) % 256, v % 256] ++ t)).getD (buf.length + 2) 0
      = (v >>> 8) % 256 := by
    rw [hs, getD_append_idx]
    rfl
  have h3 : (buf ++ ([(v >>> 24) % 256, (v >>> 16) % 256, (v >>> 8) % 256, v % 256] ++ t)).getD (buf.length + 3) 0
      = v % 256 := by
    rw [hs, getD_append_idx]
    rfl
  rw [h0, h1, h2, h3, be32_of_u32 v hv]

/-- Name-level encode-decode correctness, including the root name. -/
theorem encodeName_spec (name : List Nat) (buf : List Nat) (m : OffMap) (B : Nat)
    (hwf : wfName name) (hB : B ≤ buf.length)
    (hm : ∀ e ∈ m, EntryOk buf B e ∨ name.length < e.1.length)
    (hfit : (encodeName name buf m).1.length ≤ 16384) :
    (∃ t, (encodeName name buf m).1 = buf ++ t ∧ t ≠ []) ∧
    (∀ e ∈ (encodeName name buf m).2,
      EntryOk (encodeName name buf m).1 (encodeName name buf m).1.length e ∨ e ∈ m) ∧
    (∀ (orig : Nat) (visited : Finset Nat),
      B ≤ orig →
      (∀ v ∈ visited, (encodeName name buf m).1.length ≤ v) →
      ∃ fuel, readNameAux (encodeName name buf m).1 fuel orig visited [] buf.length
        = .ok name (encodeName name buf m).1.length) := by
  by_cases hn : name = []
  · subst hn
    have hres0 : encodeName [] buf m = (buf ++ [0], m) := rfl
    rw [hres0]
    dsimp only
    refine ⟨⟨[0], rfl, by simp⟩, fun e he => Or.inr he, ?_⟩
    intro orig visited horig hvis
    refine ⟨1, ?_⟩
    rw [readNameAux]
    rw [if_neg (by simp only [List.length_append, List.length_cons, List.length_nil]; omega)]
    rw [if_neg (by
      intro hmem
      have := hvis _ hmem
      simp only [List.length_append, List.length_cons, List.length_nil] at this
      omega)]
    rw [getD_append_self]
    rw [if_neg (by decide), if_neg (by decide), if_pos rfl]
    simp [joinDot]
  · have hres1 : encodeName name buf m = encodeLabels (splitDot name) buf m := by
      rw [encodeName, if_neg hn]
    rw [hres1] at hfit ⊢
    have hwl : ∀ l ∈ splitDot name, wfLabel l := by
      rcases hwf with h | h
      · exact absurd h hn
      · exact h
    have hmj : ∀ e ∈ m, EntryOk buf B e ∨ (joinDot (splitDot name)).length < e.1.length := by
      rw [joinDot_splitDot]
      exact hm
    obtain ⟨happ, hents, hdec⟩ := encodeLabels_spec (splitDot name) buf m B hwl hB hmj hfit
    refine ⟨happ, hents, ?_⟩
    intro orig visited horig hvis
    obtain ⟨fuel, hrun⟩ := hdec orig [] visited horig hvis
    refine ⟨fuel, ?_⟩
    rw [hrun]
    rw [show ([] : List (List Nat)) ++ splitDot name = splitDot name from rfl, joinDot_splitDot]

end DnsGo

namespace DnsGo

/-- Question-level encode-parse correctness. -/
theorem encodeQuestion_spec (q : Question) (buf : List Nat) (m : OffMap)
    (hwf : wfName q.Name) (ht16 : q.QType < 65536) (hc16 : q.QClass < 65536)
    (hminv : MInv buf m)
    (hfit : (encodeName q.Name buf m).1.length ≤ 16384) :
    MInv (encodeQuestion q buf m).1 (encodeQuestion q buf m).2 ∧
    (∃ t, (encodeQuestion q buf m).1 = buf ++ t) ∧
    (∀ ext, readQuestion ((encodeQuestion q buf m).1 ++ ext) buf.length
      = .ok q (encodeQuestion q buf m).1.length) := by
  obtain ⟨⟨t0, ht0, ht0ne⟩, hents, hdec⟩ := encodeName_spec q.Name buf m buf.length hwf le_rfl
    (fun e he => Or.inl (hminv e he)) hfit
  have hq1 : (encodeQuestion q buf m).1
      = (encodeName q.Name buf m).1 ++ (u16be q.QType ++ u16be q.QClass) := by
    rw [encodeQuestion]
    simp
  have hq2 : (encodeQuestion q buf m).2 = (encodeName q.Name buf m).2 := rfl
  have hqlen : (encodeQuestion q buf m).1.length = (encodeName q.Name buf m).1.length + 4 := by
    rw [hq1]
    simp only [List.length_append, u16be, List.length_cons, List.length_nil]
  refine ⟨?_, ?_, ?_⟩
  · intro e he
    rw [hq2] at he
    rcases hents e he with h | h
    · rw [hq1]
      exact EntryOk_mono _ _ _ _ (EntryOk_append _ _ _ _ h) (by simp)
    · have h2 := hminv e h
      have h3 : (encodeQuestion q buf m).1 = buf ++ (t0 ++ (u16be q.QType ++ u16be q.QClass)) := by
        rw [hq1, ht0]
        simp
      rw [h3]
      exact EntryOk_mono _ _ _ _ (EntryOk_append _ _ _ _ h2) (by simp)
  · exact ⟨t0 ++ (u16be q.QType ++ u16be q.QClass), by rw [hq1, ht0]; simp⟩
  · intro ext
    have hdata2 : (encodeQuestion q buf m).1 ++ ext
        = (encodeName q.Name buf m).1 ++ (u16be q.QType ++ (u16be q.QClass ++ ext)) := by
      rw [hq1]
      simp
    obtain ⟨fuel, hrun⟩ := hdec buf.length ∅ le_rfl (by simp)
    have hname : readNameT ((encodeQuestion q buf m).1 ++ ext) buf.length
        = .ok q.Name (encodeName q.Name buf m).1.length := by
      apply readNameT_of_aux
      refine ⟨fuel, ?_⟩
      rw [hdata2]
      exact readNameAux_append _ _ fuel _ _ _ _ _ _ hrun
    unfold readQuestion
    rw [hname]
    dsimp only
    have h16a : readUint16 ((encodeQuestion q buf m).1 ++ ext) (encodeName q.Name buf m).1.length
        = .ok q.QType ((encodeName q.Name buf m).1.length + 2) := by
      rw [hdata2]
      exact readUint16_at _ q.QType (u16be q.QClass ++ ext) ht16
    rw [h16a]
    dsimp only
    have hdata3 : (encodeQuestion q buf m).1 ++ ext
        = ((encodeName q.Name buf m).1 ++ u16be q.QType) ++ (u16be q.QClass ++ ext) := by
      rw [hq1]
      simp
    have h16b : readUint16 ((encodeQuestion q buf m).1 ++ ext)
        ((encodeName q.Name buf m).1.length + 2)
        = .ok q.QClass ((encodeName q.Name buf m).1.length + 2 + 2) := by
      rw [hdata3]
      have hlen2 : (encodeName q.Name buf m).1.length + 2
          = ((encodeName q.Name buf m).1 ++ u16be q.QType).length := by
        simp only [List.length_append, u16be, List.length_cons, List.length_nil]
      rw [hlen2]
      exact readUint16_at _ q.QClass ext hc16
    rw [h16b]
    dsimp only
    rw [hqlen]

end DnsGo

namespace DnsGo

/-- Record-level encode-parse correctness. -/
theorem encodeRR_spec (rr : ResourceRecord) (buf : List Nat) (m : OffMap)
    (hwf : wfName rr.Name) (ht16 : rr.Ty < 65536) (hc16 : rr.Class < 65536)
    (httl : rr.TTL < 4294967296) (hrd : rr.RData.length < 65536)
    (hminv : MInv buf m)
    (hfit : (encodeName rr.Name buf m).1.length ≤ 16384) :
    MInv (encodeRR rr buf m).1 (encodeRR rr buf m).2 ∧
    (∃ t, (encodeRR rr buf m).1 = buf ++ t) ∧
    (∀ ext, readResourceRecord ((encodeRR rr buf m).1 ++ ext) buf.length
      = .ok rr (encodeRR rr buf m).1.length) := by
  obtain ⟨⟨t0, ht0, ht0ne⟩, hents, hdec⟩ := encodeName_spec rr.Name buf m buf.length hwf le_rfl
    (fun e he => Or.inl (hminv e he)) hfit
  have hq1 : (encodeRR rr buf m).1
      = (encodeName rr.Name buf m).1 ++ (u16be rr.Ty ++ (u16be rr.Class ++ (u32be rr.TTL ++
          (u16be rr.RData.length ++ rr.RData)))) := by
    rw [encodeRR]
    simp
  have hq2 : (encodeRR rr buf m).2 = (encodeName rr.Name buf m).2 := rfl
  have hqlen : (encodeRR rr buf m).1.length
      = (encodeName rr.Name buf m).1.length + 10 + rr.RData.length := by
    rw [hq1]
    simp only [List.length_append, u16be, u32be, List.length_cons, List.length_nil]
    omega
  refine ⟨?_, ?_, ?_⟩
  · intro e he
    rw [hq2] at he
    rcases hents e he with h | h
    · rw [hq1]
      exact EntryOk_mono _ _ _ _ (EntryOk_append _ _ _ _ h) (by simp)
    · have h2 := hminv e h
      have h3 : (encodeRR rr buf m).1 = buf ++ (t0 ++ (u16be rr.Ty ++ (u16be rr.Class ++
          (u32be rr.TTL ++ (u16be rr.RData.length ++ rr.RData))))) := by
        rw [hq1, ht0]
        simp
      rw [h3]
      exact EntryOk_mono _ _ _ _ (EntryOk_append _ _ _ _ h2) (by simp)
  · exact ⟨t0 ++ (u16be rr.Ty ++ (u16be rr.Class ++ (u32be rr.TTL ++
      (u16be rr.RData.length ++ rr.RData)))), by rw [hq1, ht0]; simp⟩
  · intro ext
    obtain ⟨fuel, hrun⟩ := hdec buf.length ∅ le_rfl (by simp)
    have hdata2 : (encodeRR rr buf m).1 ++ ext
        = (encodeName rr.Name buf m).1 ++ (u16be rr.Ty ++ (u16be rr.Class ++ (u32be rr.TTL ++
            (u16be rr.RData.length ++ (rr.RData ++ ext))))) := by
      rw [hq1]
      simp
    have hname : readNameT ((encodeRR rr buf m).1 ++ ext) buf.length
        = .ok rr.Name (encodeName rr.Name buf m).1.length := by
      apply readNameT_of_aux
      refine ⟨fuel, ?_⟩
      rw [hdata2]
      exact readNameAux_append _ _ fuel _ _ _ _ _ _ hrun
    unfold readResourceRecord
    rw [hname]
    dsimp only
    have h16a : readUint16 ((encodeRR rr buf m).1 ++ ext) (encodeName rr.Name buf m).1.length
        = .ok rr.Ty ((encodeName rr.Name buf m).1.length + 2) := by
      rw [hdata2]
      exact readUint16_at _ rr.Ty _ ht16
    rw [h16a]
    dsimp only
    have hd3 : (encodeRR rr buf m).1 ++ ext
        = ((encodeName rr.Name buf m).1 ++ u16be rr.Ty) ++ (u16be rr.Class ++ (u32be rr.TTL ++
            (u16be rr.RData.length ++ (rr.RData ++ ext)))) := by
      rw [hq1]
      simp
    have hl3 : (encodeName rr.Name buf m).1.length + 2
        = ((encodeName rr.Name buf m).1 ++ u16be rr.Ty).length := by
      simp only [List.length_append, u16be, List.length_cons, List.length_nil]
    have h16b : readUint16 ((encodeRR rr buf m).1 ++ ext)
        ((encodeName rr.Name buf m).1.length + 2)
        = .ok rr.Class ((encodeName rr.Name buf m).1.length + 2 + 2) := by
      rw [hd3, hl3]
      exact readUint16_at _ rr.Class _ hc16
    rw [h16b]
    dsimp only
    have hd4 : (encodeRR rr buf m).1 ++ ext
        = ((encodeName rr.Name buf m).1 ++ u16be rr.Ty ++ u16be rr.Class) ++ (u32be rr.TTL ++
            (u16be rr.RData.length ++ (rr.RData ++ ext))) := by
      rw [hq1]
      simp
    have hl4 : (encodeName rr.Name buf m).1.length + 2 + 2
        = ((encodeName rr.Name buf m).1 ++ u16be rr.Ty ++ u16be rr.Class).length := by
      simp only [List.length_append, u16be, List.length_cons, List.length_nil]
    have h32 : readUint32 ((encodeRR rr buf m).1 ++ ext)
        ((encodeName rr.Name buf m).1.length + 2 + 2)
        = .ok rr.TTL ((encodeName rr.Name buf m).1.length + 2 + 2 + 4) := by
      rw [hd4, hl4]
      exact readUint32_at _ rr.TTL _ httl
    rw [h32]
    dsimp only
    have hd5 : (encodeRR rr buf m).1 ++ ext
        = ((encodeName rr.Name buf m).1 ++ u16be rr.Ty ++ u16be rr.Class ++ u32be rr.TTL)
          ++ (u16be rr.RData.length ++ (rr.RData ++ ext)) := by
      rw [hq1]
      simp
    have hl5 : (encodeName rr.Name buf m).1.length + 2 + 2 + 4
        = ((encodeName rr.Name buf m).1 ++ u16be rr.Ty ++ u16be rr.Class ++ u32be rr.TTL).length := by
      simp only [List.length_append, u16be, u32be, List.length_cons, List.length_nil]
    have h16c : readUint16 ((encodeRR rr buf m).1 ++ ext)
        ((encodeName rr.Name buf m).1.length + 2 + 2 + 4)
        = .ok rr.RData.length ((encodeName rr.Name buf m).1.length + 2 + 2 + 4 + 2) := by
      rw [hd5, hl5]
      exact readUint16_at _ rr.RData.length _ hrd
    rw [h16c]
    dsimp only
    have hd6 : (encodeRR rr buf m).1 ++ ext
        = ((encodeName rr.Name buf m).1 ++ u16be rr.Ty ++ u16be rr.Class ++ u32be rr.TTL
            ++ u16be rr.RData.length) ++ (rr.RData ++ ext) := by
      rw [hq1]
      simp
    have hl6 : (encodeName rr.Name buf m).1.length + 2 + 2 + 4 + 2
        = ((encodeName rr.Name buf m).1 ++ u16be rr.Ty ++ u16be rr.Class ++ u32be rr.TTL
            ++ u16be rr.RData.length).length := by
      simp only [List.length_append, u16be, u32be, List.length_cons, List.length_nil]
    rw [if_neg (by
      rw [hd6, hl6]
      simp only [List.length_append]
      omega)]
    have hslice : (((encodeRR rr buf m).1 ++ ext).drop
        ((encodeName rr.Name buf m).1.length + 2 + 2 + 4 + 2)).take rr.RData.length
        = rr.RData := by
      rw [hd6, hl6, List.drop_left, List.take_left]
    rw [hslice]
    have hfin : (encodeName rr.Name buf m).1.length + 2 + 2 + 4 + 2 + rr.RData.length
        = (encodeRR rr buf m).1.length := by
      rw [hqlen]
    rw [hfin]

end DnsGo

namespace DnsGo

/-- Question lists: sequential encodes parse back with `readQuestions`. -/
theorem encodeQuestions_spec :
    ∀ (qs : List Question) (buf : List Nat) (m : OffMap),
      (∀ q ∈ qs, wfName q.Name ∧ q.QType < 65536 ∧ q.QClass < 65536) →
      MInv buf m →
      (encodeQuestions qs buf m).1.length ≤ 16384 →
      MInv (encodeQuestions qs buf m).1 (encodeQuestions qs buf m).2 ∧
      (∃ t, (encodeQuestions qs buf m).1 = buf ++ t) ∧
      (∀ ext, readQuestions ((encodeQuestions qs buf m).1 ++ ext) qs.length buf.length
        = .ok qs (encodeQuestions qs buf m).1.length) := by
  intro qs
  induction qs with
  | nil =>
    intro buf m _ hminv _
    refine ⟨hminv, ⟨[], by simp [encodeQuestions]⟩, fun ext => rfl⟩
  | cons q qs ih =>
    intro buf m hwf hminv hfit
    rw [encodeQuestions] at hfit ⊢
    obtain ⟨t2, ht2⟩ := encodeQuestions_append_ex qs (encodeQuestion q buf m).1
      (encodeQuestion q buf m).2
    have hfit1 : (encodeQuestion q buf m).1.length ≤ 16384 := by
      rw [ht2] at hfit
      simp only [List.length_append] at hfit
      omega
    have hfitn : (encodeName q.Name buf m).1.length ≤ 16384 := by
      have he : (encodeQuestion q buf m).1
          = (encodeName q.Name buf m).1 ++ (u16be q.QType ++ u16be q.QClass) := by
        rw [encodeQuestion]
        simp
      rw [he] at hfit1
      simp only [List.length_append] at hfit1
      omega
    obtain ⟨hm1, ⟨t1, ht1⟩, hdec1⟩ := encodeQuestion_spec q buf m (hwf q (by simp)).1
      (hwf q (by simp)).2.1 (hwf q (by simp)).2.2 hminv hfitn
    obtain ⟨hm2, ⟨t2', ht2'⟩, hdec2⟩ := ih (encodeQuestion q buf m).1 (encodeQuestion q buf m).2
      (fun x hx => hwf x (by simp [hx])) hm1 hfit
    refine ⟨hm2, ⟨t1 ++ t2', by rw [ht2', ht1]; simp⟩, ?_⟩
    intro ext
    simp only [List.length_cons]
    rw [readQuestions]
    have hd : (encodeQuestions qs (encodeQuestion q buf m).1 (encodeQuestion q buf m).2).1 ++ ext
        = (encodeQuestion q buf m).1 ++ (t2' ++ ext) := by
      rw [ht2']
      simp
    rw [hd, hdec1 (t2' ++ ext), ← hd]
    dsimp only
    rw [hdec2 ext]

/-- Record lists: sequential encodes parse back with `readRRs`. -/
theorem encodeRRs_spec :
    ∀ (rrs : List ResourceRecord) (buf : List Nat) (m : OffMap),
      (∀ rr ∈ rrs, wfName rr.Name ∧ rr.Ty < 65536 ∧ rr.Class < 65536 ∧ rr.TTL < 4294967296 ∧
        rr.RData.length < 65536) →
      MInv buf m →
      (encodeRRs rrs buf m).1.length ≤ 16384 →
      MInv (encodeRRs rrs buf m).1 (encodeRRs rrs buf m).2 ∧
      (∃ t, (encodeRRs rrs buf m).1 = buf ++ t) ∧
      (∀ ext, readRRs ((encodeRRs rrs buf m).1 ++ ext) rrs.length buf.length
        = .ok rrs (encodeRRs rrs buf m).1.length) := by
  intro rrs
  induction rrs with
  | nil =>
    intro buf m _ hminv _
    refine ⟨hminv, ⟨[], by simp [encodeRRs]⟩, fun ext => rfl⟩
  | cons rr rrs ih =>
    intro buf m hwf hminv hfit
    rw [encodeRRs] at hfit ⊢
    obtain ⟨t2, ht2⟩ := encodeRRs_append_ex rrs (encodeRR rr buf m).1 (encodeRR rr buf m).2
    have hfit1 : (encodeRR rr buf m).1.length ≤ 16384 := by
      rw [ht2] at hfit
      simp only [List.length_append] at hfit
      omega
    have hfitn : (encodeName rr.Name buf m).1.length ≤ 16384 := by
      have he : (encodeRR rr buf m).1
          = (encodeName rr.Name buf m).1 ++ (u16be rr.Ty ++ u16be rr.Class ++ u32be rr.TTL ++
              u16be rr.RData.length ++ rr.RData) := by
        rw [encodeRR]
        simp
      rw [he] at hfit1
      simp only [List.length_append] at hfit1
      omega
    obtain ⟨hwf1, hwf2, hwf3, hwf4, hwf5⟩ := hwf rr (by simp)
    obtain ⟨hm1, ⟨t1, ht1⟩, hdec1⟩ := encodeRR_spec rr buf m hwf1 hwf2 hwf3 hwf4 hwf5 hminv hfitn
    obtain ⟨hm2, ⟨t2', ht2'⟩, hdec2⟩ := ih (encodeRR rr buf m).1 (encodeRR rr buf m).2
      (fun x hx => hwf x (by simp [hx])) hm1 hfit
    refine ⟨hm2, ⟨t1 ++ t2', by rw [ht2', ht1]; simp⟩, ?_⟩
    intro ext
    simp only [List.length_cons]
    rw [readRRs]
    have hd : (encodeRRs rrs (encodeRR rr buf m).1 (encodeRR rr buf m).2).1 ++ ext
        = (encodeRR rr buf m).1 ++ (t2' ++ ext) := by
      rw [ht2']
      simp
    rw [hd, hdec1 (t2' ++ ext), ← hd]
    dsimp only
    rw [hdec2 ext]

end DnsGo

namespace DnsGo

/-- A query with Opcode 16: all label-length and count conditions of the
round-trip property hold, yet parsing its encoding changes the header,
because `Header.Encode` masks the opcode with `& 0x0F`. -/
def c1BadQuery : Query :=
  { Header := { ID := 1, QR := false, Opcode := 16, AA := false, TC := false, RD := false,
                RA := false, Z := 0, RCode := 0, QDCount := 0, ANCount := 0, NSCount := 0,
                ARCount := 0 },
    Questions := [], Answers := [] }

/-- C1 (counterexample): `c1BadQuery` has well-formed names (vacuously) and
counts matching its sequences, yet `ParseMessage (encodeQuery c1BadQuery)`
returns a message whose Opcode is 0, not 16 — round-trip fails. -/
theorem C1_counterexample :
    (∀ question ∈ c1BadQuery.Questions, wfName question.Name) ∧
    (∀ rr ∈ c1BadQuery.Answers, wfName rr.Name) ∧
    c1BadQuery.Header.QDCount = c1BadQuery.Questions.length ∧
    c1BadQuery.Header.ANCount = c1BadQuery.Answers.length ∧
    ParseMessage (encodeQuery c1BadQuery)
      = .ok { Header := { c1BadQuery.Header with Opcode := 0 },
              Questions := [], Answers := [], Authorities := [], Additionals := [] } ∧
    ParseMessage (encodeQuery c1BadQuery)
      ≠ .ok { Header := c1BadQuery.Header, Questions := c1BadQuery.Questions,
              Answers := c1BadQuery.Answers, Authorities := [], Additionals := [] } := by
  decide

end DnsGo

namespace DnsGo

/-- C1 (amended): for a query whose header fields are in range, whose Opcode
fits in 4 bits, whose question/answer counts equal the sequence lengths with
no authority/additional records counted, whose names are well-formed, whose
numeric fields fit their wire widths, and whose encoding fits in 16384 bytes
(so compression pointers are representable), `ParseMessage` on
`encodeQuery` recovers exactly the header, questions and answers. -/
theorem C1_roundtrip_amended (q : Query)
    (hID : q.Header.ID < 65536) (hop : q.Header.Opcode < 16) (hz : q.Header.Z < 8)
    (hrc : q.Header.RCode < 16)
    (hqd : q.Header.QDCount = q.Questions.length) (han : q.Header.ANCount = q.Answers.length)
    (hns : q.Header.NSCount = 0) (har : q.Header.ARCount = 0)
    (hqd16 : q.Header.QDCount < 65536) (han16 : q.Header.ANCount < 65536)
    (hqs : ∀ question ∈ q.Questions,
      wfName question.Name ∧ question.QType < 65536 ∧ question.QClass < 65536)
    (hrs : ∀ rr ∈ q.Answers, wfName rr.Name ∧ rr.Ty < 65536 ∧ rr.Class < 65536 ∧
      rr.TTL < 4294967296 ∧ rr.RData.length < 65536)
    (hfit : (encodeQuery q).length ≤ 16384) :
    ParseMessage (encodeQuery q)
      = .ok { Header := q.Header, Questions := q.Questions, Answers := q.Answers,
              Authorities := [], Additionals := [] } := by
  have hEq : encodeQuery q
      = (encodeRRs q.Answers (encodeQuestions q.Questions (encodeHeader q.Header) []).1
          (encodeQuestions q.Questions (encodeHeader q.Header) []).2).1 := rfl
  obtain ⟨ta, hta⟩ := encodeRRs_append_ex q.Answers
    (encodeQuestions q.Questions (encodeHeader q.Header) []).1
    (encodeQuestions q.Questions (encodeHeader q.Header) []).2
  have hfitQ : (encodeQuestions q.Questions (encodeHeader q.Header) []).1.length ≤ 16384 := by
    rw [hEq, hta] at hfit
    simp only [List.length_append] at hfit
    omega
  obtain ⟨hm1, ⟨tq, htq⟩, hdecQ⟩ := encodeQuestions_spec q.Questions (encodeHeader q.Header) []
    hqs (fun e he => absurd he (by simp)) hfitQ
  obtain ⟨hm2, ⟨ta', hta'⟩, hdecA⟩ := encodeRRs_spec q.Answers
    (encodeQuestions q.Questions (encodeHeader q.Header) []).1
    (encodeQuestions q.Questions (encodeHeader q.Header) []).2
    hrs hm1 (by rw [← hEq]; exact hfit)
  have hhd : parseHeader (encodeQuery q) = .ok q.Header := by
    have hstruct : encodeQuery q = encodeHeader q.Header ++ (tq ++ ta') := by
      rw [hEq, hta', htq]
      simp
    rw [hstruct]
    exact parseHeader_encode q.Header (tq ++ ta') hID hop hz hrc hqd16 han16
      (by omega) (by omega)
  unfold ParseMessage
  rw [hhd]
  dsimp only
  have hq12 : readQuestions (encodeQuery q) q.Header.QDCount 12
      = .ok q.Questions (encodeQuestions q.Questions (encodeHeader q.Header) []).1.length := by
    rw [hqd]
    have h12 : (12 : Nat) = (encodeHeader q.Header).length := (encodeHeader_length q.Header).symm
    rw [h12]
    have hstruct : encodeQuery q
        = (encodeQuestions q.Questions (encodeHeader q.Header) []).1 ++ ta' := by
      rw [hEq, hta']
    rw [hstruct]
    exact hdecQ ta'
  rw [hq12]
  dsimp only
  have hans : readRRs (encodeQuery q) q.Header.ANCount
      (encodeQuestions q.Questions (encodeHeader q.Header) []).1.length
      = .ok q.Answers (encodeQuery q).length := by
    rw [han]
    have hstruct : encodeQuery q = encodeQuery q ++ [] := by simp
    conv_lhs => rw [hstruct, hEq]
    rw [hEq]
    exact hdecA []
  rw [hans]
  dsimp only
  rw [hns, har]
  dsimp only [readRRs]

end DnsGo

namespace DnsGo

/-- A response with a repeated full name and a shared name suffix, so that
its encoding uses both full-name and partial compression pointers. -/
def c1WitnessQuery : Query :=
  { Header := { ID := 4660, QR := true, Opcode := 0, AA := false, TC := false, RD := true,
                RA := true, Z := 0, RCode := 0, QDCount := 1, ANCount := 2, NSCount := 0,
                ARCount := 0 },
    Questions := [{ Name := [97, 98, 46, 99, 100], QType := 1, QClass := 1 }],
    Answers := [{ Name := [97, 98, 46, 99, 100], Ty := 1, Class := 1, TTL := 60,
                  RData := [8, 8, 8, 8] },
                { Name := [120, 46, 99, 100], Ty := 1, Class := 1, TTL := 60,
                  RData := [1, 2, 3, 4] }] }

theorem C1_roundtrip_amended_witness :
    ParseMessage (encodeQuery c1WitnessQuery)
      = .ok { Header := c1WitnessQuery.Header, Questions := c1WitnessQuery.Questions,
              Answers := c1WitnessQuery.Answers, Authorities := [], Additionals := [] } :=
  C1_roundtrip_amended c1WitnessQuery (by decide) (by decide) (by decide) (by decide)
    (by decide) (by decide) (by decide) (by decide) (by decide) (by decide)
    (by decide) (by decide) (by decide)

end DnsGo
